import Mathlib

/-!
# Packaging script `create_analyzer_zip.js`

A shallow embedding of the three functions of the script
(`createLogAnalyzerZip`, `createLogCollectorZip`, `createAllZips`) over an
explicit model of what they talk to: a filesystem tree, the console, and the
queue of an archiver instance.

* A path is the list of its components; `path.join` appends components and a
  name returned by `readdirSync` is one component. `dirname` stands for
  `__dirname`.
* The filesystem is a tree of nodes (regular file, directory, other); symbolic
  links are not modelled. `existsSync`, `readdirSync`, `statSync`, `mkdirSync`
  (recursive) and `createWriteStream` are given their Node.js behaviour on that
  tree, including the cases in which they throw: `mkdirSync` when an existing
  component is not a directory, `readdirSync` on anything but a directory,
  `statSync` on a path that does not resolve.
* An archive is the ordered list of the requests made to the archiver
  (`archive.file`, `archive.append`); what the archiver later reads and the
  compressed bytes it writes are not modelled, and the archive file appears
  in the tree as the empty file `createWriteStream` leaves.
* A function body is a state transformer that ends normally, by a thrown
  error (a rejected promise for an `async` function), or by the unhandled
  `error` event of a write stream that could not be opened, which ends the
  process past every `catch`.

The file has the model and the script first, then the vocabulary of the
statements and the concrete filesystems used as inputs, then the proofs; the
theorems that settle the claims `C1` to `C10` come last.
-/

namespace AnalyzerZip

/-! ## Filesystem -/

/-- A path, as the list of its components below the filesystem root. -/
abbrev Path := List String

/-- A filesystem node: a regular file with its text, a directory with its
entries in listing order, or something else (device, socket, ...). -/
inductive Node where
  | file (content : String)
  | dir (entries : List (String × Node))
  | special

/-- The entry of a directory with the given name (none for a non-directory). -/
def Node.child : Node → String → Option Node
  | .dir es, name => es.lookup name
  | _, _ => none

/-- Path resolution from a node. -/
def Node.find : Node → Path → Option Node
  | n, [] => some n
  | n, c :: rest =>
    match n.child c with
    | some ch => ch.find rest
    | none => none

/-- Replace the entry called `name`, or add it at the end of the listing. -/
def setEntry (es : List (String × Node)) (name : String) (v : Node) : List (String × Node) :=
  if (es.lookup name).isSome then
    es.map (fun e => if e.1 = name then (e.1, v) else e)
  else
    es ++ [(name, v)]

/-- Recursive directory creation, `mkdir -p`: every missing component is
created; fails (none) when a component exists and is not a directory. -/
def Node.mkdirp : Node → Path → Option Node
  | .dir es, [] => some (.dir es)
  | .dir es, c :: rest =>
    match es.lookup c with
    | some ch => (ch.mkdirp rest).map (fun ch' => .dir (setEntry es c ch'))
    | none => ((Node.dir []).mkdirp rest).map (fun ch' => .dir (setEntry es c ch'))
  | _, _ => none

/-- Opening a path for writing with flag `w`: the parent must be a directory
and the target must not be a directory; a regular file is created or
truncated, another kind of node is left as it is. -/
def Node.openWrite : Node → Path → Option Node
  | .dir es, [c] =>
    match es.lookup c with
    | some (.dir _) => none
    | some .special => some (.dir es)
    | _ => some (.dir (setEntry es c (.file "")))
  | .dir es, c :: rest =>
    match es.lookup c with
    | some ch => (ch.openWrite rest).map (fun ch' => .dir (setEntry es c ch'))
    | none => none
  | _, _ => none

/-! ## Console, archiver and machine state -/

/-- Errors a call can throw. -/
inductive Err where
  | mkdirFailed (p : Path)
  | notADirectory (p : Path)
  | noSuchEntry (p : Path)
  deriving DecidableEq, Repr

/-- One line of console output. -/
inductive Line where
  | log (s : String)
  | warn (s : String)
  | error (s : String) (e : Err)
  deriving DecidableEq, Repr

/-- What an archive entry is fed from: a file on disk (`archive.file`), nothing
(`archive.append(null, ...)`, a directory marker), or literal text. -/
inductive Source where
  | path (p : Path)
  | marker
  | text (s : String)
  deriving DecidableEq, Repr

/-- A request queued on the archiver: the name inside the archive and the source. -/
structure Entry where
  name : String
  source : Source
  deriving DecidableEq, Repr

/-- The effectful filesystem calls, recorded in call order. -/
inductive FsCall where
  | mkdir (p : Path)
  | openWrite (p : Path)
  deriving DecidableEq, Repr

/-- The stream returned by `createWriteStream`; `opens` tells whether the
underlying open succeeds. -/
structure WriteStream where
  path : Path
  opens : Bool
  deriving DecidableEq, Repr

/-- Machine state: the filesystem root, the console output (oldest first), the
trace of effectful filesystem calls, and the archiver instance of the running
job (its queued entries and the stream it is piped to). -/
structure St where
  fs : Node
  console : List Line
  trace : List FsCall
  entries : List Entry
  dest : Option WriteStream

/-- The state in which the script starts on a given filesystem. -/
def St.init (fs : Node) : St :=
  { fs := fs, console := [], trace := [], entries := [], dest := none }

/-- How a piece of code ends: normally with a value, by a thrown error, or by
an unhandled stream error, which no `catch` sees and which ends the process. -/
inductive Res (α : Type) where
  | ok (a : α) (s : St)
  | throw (e : Err) (s : St)
  | abort (s : St)

/-- The state in which a run ended. -/
def Res.state {α : Type} : Res α → St
  | .ok _ s => s
  | .throw _ s => s
  | .abort s => s

/-- Whether the run ended normally. -/
def Res.isOk {α : Type} : Res α → Bool
  | .ok _ _ => true
  | _ => false

/-- Whether the run ended by a thrown error. -/
def Res.isThrow {α : Type} : Res α → Bool
  | .throw _ _ => true
  | _ => false

/-- Code: a state transformer with the three endings of `Res`. -/
def M (α : Type) : Type := St → Res α

instance : Monad M where
  pure a := fun s => .ok a s
  bind m f := fun s =>
    match m s with
    | .ok a s' => f a s'
    | .throw e s' => .throw e s'
    | .abort s' => .abort s'

/-- The loop `for (const x of xs) body`. -/
def forEach {α : Type} : List α → (α → M Unit) → M Unit
  | [], _ => pure ()
  | x :: xs, body => do
    body x
    forEach xs body

/-- The statement `try body catch (error) handler`. -/
def tryCatch (body : M Unit) (handler : Err → M Unit) : M Unit := fun s =>
  match body s with
  | .ok a s' => .ok a s'
  | .throw e s' => handler e s'
  | .abort s' => .abort s'

/-! ## The library calls the script makes -/

/-- The call `path.join(base, rel)`, on component lists. -/
def join (base rel : Path) : Path := base ++ rel

/-- Text of a path, POSIX style. -/
def showPath (p : Path) : String := String.join (p.map (fun c => "/" ++ c))

/-- Last non-empty `/`-separated piece of a character list, `acc` being the
piece under construction and `last` the last completed one. -/
def lastPiece : List Char → List Char → List Char → List Char
  | acc, last, [] => if acc.isEmpty then last else acc
  | acc, last, c :: cs =>
    if c = '/' then lastPiece [] (if acc.isEmpty then last else acc) cs
    else lastPiece (acc ++ [c]) last cs

/-- The call `path.basename(p)`. -/
def basename (p : String) : String := ⟨lastPiece [] [] p.data⟩

/-- The call `fs.existsSync(p)`. -/
def existsSync (p : Path) : M Bool := fun s => .ok (s.fs.find p).isSome s

/-- The call `fs.mkdirSync(p, { recursive: true })`. -/
def mkdirSync (p : Path) : M Unit := fun s =>
  match s.fs.mkdirp p with
  | some fs' => .ok () { s with fs := fs', trace := s.trace ++ [.mkdir p] }
  | none => .throw (.mkdirFailed p) { s with trace := s.trace ++ [.mkdir p] }

/-- The call `fs.createWriteStream(p)`: never throws; a failing open shows
later as an error event of the stream. -/
def createWriteStream (p : Path) : M WriteStream := fun s =>
  match s.fs.openWrite p with
  | some fs' => .ok ⟨p, true⟩ { s with fs := fs', trace := s.trace ++ [.openWrite p] }
  | none => .ok ⟨p, false⟩ { s with trace := s.trace ++ [.openWrite p] }

/-- The call `fs.readdirSync(p)`. -/
def readdirSync (p : Path) : M (List String) := fun s =>
  match s.fs.find p with
  | some (.dir es) => .ok (es.map Prod.fst) s
  | _ => .throw (.notADirectory p) s

/-- The call `fs.statSync(p).isFile()`. -/
def statIsFile (p : Path) : M Bool := fun s =>
  match s.fs.find p with
  | some (.file _) => .ok true s
  | some _ => .ok false s
  | none => .throw (.noSuchEntry p) s

/-- The call `archiver('zip', ...)`: a fresh archiver instance. -/
def archiver : M Unit := fun s => .ok () { s with entries := [], dest := none }

/-- The call `archive.pipe(output)`. -/
def archivePipe (output : WriteStream) : M Unit := fun s =>
  .ok () { s with dest := some output }

/-- The call `archive.file(p, { name })`. -/
def archiveFile (p : Path) (name : String) : M Unit := fun s =>
  .ok () { s with entries := s.entries ++ [⟨name, .path p⟩] }

/-- The call `archive.append(null, { name })`. -/
def archiveAppendNull (name : String) : M Unit := fun s =>
  .ok () { s with entries := s.entries ++ [⟨name, .marker⟩] }

/-- The call `archive.append(content, { name })`. -/
def archiveAppend (content name : String) : M Unit := fun s =>
  .ok () { s with entries := s.entries ++ [⟨name, .text content⟩] }

/-- The statement `await archive.finalize()`: the destination stream has no
error listener, so a failed open ends the process. -/
def archiveFinalize : M Unit := fun s =>
  match s.dest with
  | some ⟨_, false⟩ => .abort s
  | _ => .ok () s

/-- The call `console.log(msg)`. -/
def consoleLog (msg : String) : M Unit := fun s =>
  .ok () { s with console := s.console ++ [.log msg] }

/-- The call `console.warn(msg)`. -/
def consoleWarn (msg : String) : M Unit := fun s =>
  .ok () { s with console := s.console ++ [.warn msg] }

/-- The call `console.error(msg, error)`. -/
def consoleError (msg : String) (e : Err) : M Unit := fun s =>
  .ok () { s with console := s.console ++ [.error msg e] }

/-! ## The script -/

/-- The constant `filesToInclude`. -/
def filesToInclude : List String :=
  [ "log_analyzer_tool.py",
    "requirements.txt",
    "start_log_analyzer_gui.bat",
    "log_analyzer_readme.md",
    "test_model_path.py" ]

/-- The constant `otherModelDirs`. -/
def otherModelDirs : List String :=
  [ "bert-log-model",
    "bgl-bert-base-model",
    "bgl-roberta-model",
    "hdfs_roberta_model",
    "roberta-log-model" ]

/-- The template `readmeContent` of `createLogAnalyzerZip`. -/
def analyzerReadmeContent : String :=
"# Log Analyzer Tool

## Instructions for Use
1. Make sure you have Python 3.8 or higher installed
2. Install required packages: `pip install -r requirements.txt`
3. Run `start_log_analyzer_gui.bat` to start the analyzer GUI
4. Follow the instructions in the application

## Troubleshooting
If you encounter issues with the AI model:
1. Run `python test_model_path.py` to diagnose model path issues
2. Follow the suggestions in the output

For more details, see the log_analyzer_readme.md file.

## Important Note
The tool expects the following directory structure:
- log_analyzer_gui.py (in the root directory)
- log_analyzer_tool.py
- AI/main-federated-roberta-model/ (directory containing model files)

Do not change this structure or the tool may not work correctly.
"

/-- The template `sampleCsvContent` of `createLogAnalyzerZip`. -/
def sampleCsvContent : String :=
"log,device_name,device_ip,device_mac
\"User login successful\",Server01,192.168.1.10,00:1A:2B:3C:4D:5E
\"Failed login attempt - incorrect password\",Server01,192.168.1.10,00:1A:2B:3C:4D:5E
\"System shutdown initiated\",Server02,192.168.1.11,00:1A:2B:3C:4D:5F
\"Error: Unable to connect to database\",Server03,192.168.1.12,00:1A:2B:3C:4D:60
\"Warning: Disk space below 10%\",Server02,192.168.1.11,00:1A:2B:3C:4D:5F
\"Suspicious activity detected from IP 203.0.113.42\",Server01,192.168.1.10,00:1A:2B:3C:4D:5E
\"Service started successfully\",Server03,192.168.1.12,00:1A:2B:3C:4D:60
\"Backup completed successfully\",Server02,192.168.1.11,00:1A:2B:3C:4D:5F
\"Network connection lost\",Server01,192.168.1.10,00:1A:2B:3C:4D:5E
\"Security update installed\",Server03,192.168.1.12,00:1A:2B:3C:4D:60"

/-- The template `readmeContent` of `createLogCollectorZip`. -/
def collectorReadmeContent : String :=
"# Log Collector Tool

## Coming Soon
This tool is currently under development. 

In the meantime, you can use the Log Analyzer GUI tool to analyze your logs locally.

## Instructions
1. Collect your logs in CSV format with the following columns:
   - log: The log message text
   - device_name (optional): Name of the device
   - device_ip (optional): IP address of the device
   - device_mac (optional): MAC address of the device
   - time (optional): Timestamp of the log

2. Use the Log Analyzer GUI tool to analyze these logs.

Stay tuned for updates!
"

/-- The function `createLogAnalyzerZip`; `dirname` is `__dirname`. -/
def createLogAnalyzerZip (dirname : Path) : M Unit := do
  let outputDir := join dirname ["Front-End", "public", "downloads"]
  let outputFile := join outputDir ["log_analyzer_tool.zip"]
  if !(← existsSync outputDir) then
    mkdirSync outputDir
  let output ← createWriteStream outputFile
  archiver
  archivePipe output
  forEach filesToInclude fun file => do
    let filePath := join dirname [file]
    if (← existsSync filePath) then
      archiveFile filePath (basename file)
    else
      consoleWarn ("Warning: File not found: " ++ file)
  let guiFilePath := join dirname ["AI", "log_analyzer_gui.py"]
  if (← existsSync guiFilePath) then
    archiveFile guiFilePath "log_analyzer_gui.py"
  else
    consoleWarn "Warning: File not found: AI/log_analyzer_gui.py"
  let aiDir := join dirname ["AI"]
  if (← existsSync aiDir) then
    archiveAppendNull "AI/"
    let modelDir := join aiDir ["main-federated-roberta-model"]
    if (← existsSync modelDir) then
      archiveAppendNull "AI/main-federated-roberta-model/"
      let modelFiles ← readdirSync modelDir
      forEach modelFiles fun file => do
        let filePath := join modelDir [file]
        if (← statIsFile filePath) then
          archiveFile filePath ("AI/main-federated-roberta-model/" ++ file)
          consoleLog ("Adding model file: " ++ file)
    else
      consoleWarn ("Warning: Model directory not found: " ++ showPath modelDir)
    forEach otherModelDirs fun modelName => do
      let modelPath := join aiDir [modelName]
      if (← existsSync modelPath) then
        consoleLog ("Adding additional model: " ++ modelName)
        archiveAppendNull ("AI/" ++ modelName ++ "/")
        let modelFiles ← readdirSync modelPath
        forEach modelFiles fun file => do
          let filePath := join modelPath [file]
          if (← statIsFile filePath) then
            archiveFile filePath ("AI/" ++ modelName ++ "/" ++ file)
  else
    consoleWarn ("Warning: AI directory not found: " ++ showPath aiDir)
  archiveAppend analyzerReadmeContent "README.md"
  archiveAppend sampleCsvContent "sample_logs.csv"
  archiveFinalize
  consoleLog "Log Analyzer Tool zip file created successfully!"

/-- The function `createLogCollectorZip`; `dirname` is `__dirname`. -/
def createLogCollectorZip (dirname : Path) : M Unit := do
  let outputDir := join dirname ["Front-End", "public", "downloads"]
  let outputFile := join outputDir ["log_collector_tool.zip"]
  if !(← existsSync outputDir) then
    mkdirSync outputDir
  let output ← createWriteStream outputFile
  archiver
  archivePipe output
  archiveAppend collectorReadmeContent "README.md"
  archiveFinalize
  consoleLog "Log Collector Tool zip file created successfully!"

/-- The function `createAllZips`. -/
def createAllZips (dirname : Path) : M Unit :=
  tryCatch
    (do
      createLogAnalyzerZip dirname
      createLogCollectorZip dirname
      consoleLog "All zip files created successfully!")
    (fun error => consoleError "Error creating zip files:" error)

/-! ## Summaries used in the proofs -/

/-- Summary of a block of code that only queues entries and prints lines and
then ends normally or by a throw. -/
structure Effect where
  entries : List Entry
  console : List Line
  err : Option Err

/-- The code a summary stands for. -/
def Effect.run (e : Effect) : M Unit := fun s =>
  match e.err with
  | none => .ok () { s with entries := s.entries ++ e.entries, console := s.console ++ e.console }
  | some er =>
    .throw er { s with entries := s.entries ++ e.entries, console := s.console ++ e.console }

/-- Summary of the empty block. -/
def Effect.skip : Effect := ⟨[], [], none⟩

/-- Summary of one block followed by another. -/
def Effect.andThen (a b : Effect) : Effect :=
  match a.err with
  | some _ => a
  | none => ⟨a.entries ++ b.entries, a.console ++ b.console, b.err⟩

/-- Summary of a sequence of blocks. -/
def Effect.seq : List Effect → Effect
  | [] => .skip
  | e :: es => e.andThen (Effect.seq es)

/-- Summary of a throw. -/
def Effect.fail (e : Err) : Effect := ⟨[], [], some e⟩

/-- Summary of a block that continues as `a` on a regular file, as `b` on
another node, and throws `e` when nothing is there. -/
def Effect.whenFile (n : Option Node) (a b : Effect) (e : Err) : Effect :=
  match n with
  | some (.file _) => a
  | some _ => b
  | none => .fail e

/-- Summary of a block that continues with the listing of a directory and
throws `e` on anything else. -/
def Effect.whenDir (n : Option Node) (k : List String → Effect) (e : Err) : Effect :=
  match n with
  | some (.dir es) => k (es.map Prod.fst)
  | _ => .fail e

/-- The code of a summary that depends on the filesystem. -/
def runF (E : Node → Effect) : M Unit := fun s => (E s.fs).run s

/-- A summarised block followed by the code `k`. -/
def eff (E : Node → Effect) (k : M Unit) : M Unit := runF E >>= fun _ => k

/-- Summary of `archive.file(p, { name })`. -/
def Effect.file (p : Path) (name : String) : Effect := ⟨[⟨name, .path p⟩], [], none⟩

/-- Summary of `archive.append(null, { name })`. -/
def Effect.marker (name : String) : Effect := ⟨[⟨name, .marker⟩], [], none⟩

/-- Summary of `archive.append(content, { name })`. -/
def Effect.text (content name : String) : Effect := ⟨[⟨name, .text content⟩], [], none⟩

/-- Summary of `console.log(msg)`. -/
def Effect.log (msg : String) : Effect := ⟨[], [.log msg], none⟩

/-- Summary of `console.warn(msg)`. -/
def Effect.warn (msg : String) : Effect := ⟨[], [.warn msg], none⟩

/-- The body of the listing loop of the main model directory (lines 67 to 73). -/
def mainChildEffect (dirname : Path) (fs : Node) (file : String) : Effect :=
  Effect.whenFile (fs.find (dirname ++ ["AI", "main-federated-roberta-model", file]))
    ((Effect.file (dirname ++ ["AI", "main-federated-roberta-model", file])
        ("AI/main-federated-roberta-model/" ++ file)).andThen
      (Effect.log ("Adding model file: " ++ file)))
    Effect.skip
    (.noSuchEntry (dirname ++ ["AI", "main-federated-roberta-model", file]))

/-- Lines 60 to 76 of the script. -/
def mainModelEffect (dirname : Path) (fs : Node) : Effect :=
  if (fs.find (dirname ++ ["AI", "main-federated-roberta-model"])).isSome then
    (Effect.marker "AI/main-federated-roberta-model/").andThen
      (Effect.whenDir (fs.find (dirname ++ ["AI", "main-federated-roberta-model"]))
        (fun modelFiles => Effect.seq (modelFiles.map (mainChildEffect dirname fs)))
        (.notADirectory (dirname ++ ["AI", "main-federated-roberta-model"])))
  else
    Effect.warn ("Warning: Model directory not found: " ++
      showPath (dirname ++ ["AI", "main-federated-roberta-model"]))

/-- The body of the listing loop of another model directory (lines 96 to 101). -/
def otherChildEffect (dirname : Path) (fs : Node) (modelName file : String) : Effect :=
  Effect.whenFile (fs.find (dirname ++ ["AI", modelName, file]))
    (Effect.file (dirname ++ ["AI", modelName, file]) ("AI/" ++ modelName ++ "/" ++ file))
    Effect.skip
    (.noSuchEntry (dirname ++ ["AI", modelName, file]))

/-- The body of the loop over `otherModelDirs` (lines 88 to 102). -/
def otherModelEffect (dirname : Path) (fs : Node) (modelName : String) : Effect :=
  if (fs.find (dirname ++ ["AI", modelName])).isSome then
    (Effect.log ("Adding additional model: " ++ modelName)).andThen
      ((Effect.marker ("AI/" ++ modelName ++ "/")).andThen
        (Effect.whenDir (fs.find (dirname ++ ["AI", modelName]))
          (fun modelFiles => Effect.seq (modelFiles.map (otherChildEffect dirname fs modelName)))
          (.notADirectory (dirname ++ ["AI", modelName]))))
  else
    Effect.skip

/-- Lines 54 to 106 of the script. -/
def aiEffect (dirname : Path) (fs : Node) : Effect :=
  if (fs.find (dirname ++ ["AI"])).isSome then
    (Effect.marker "AI/").andThen
      ((mainModelEffect dirname fs).andThen
        (Effect.seq (otherModelDirs.map (otherModelEffect dirname fs))))
  else
    Effect.warn ("Warning: AI directory not found: " ++ showPath (dirname ++ ["AI"]))

/-- The body of the loop over `filesToInclude` (lines 35 to 41). -/
def fileEffect (dirname : Path) (fs : Node) (file : String) : Effect :=
  if (fs.find (dirname ++ [file])).isSome then Effect.file (dirname ++ [file]) (basename file)
  else Effect.warn ("Warning: File not found: " ++ file)

/-- Lines 45 to 50 of the script. -/
def guiEffect (dirname : Path) (fs : Node) : Effect :=
  if (fs.find (dirname ++ ["AI", "log_analyzer_gui.py"])).isSome then
    Effect.file (dirname ++ ["AI", "log_analyzer_gui.py"]) "log_analyzer_gui.py"
  else Effect.warn "Warning: File not found: AI/log_analyzer_gui.py"

/-- Lines 133 and 148 of the script. -/
def inlineEffect : Effect :=
  (Effect.text analyzerReadmeContent "README.md").andThen
    (Effect.text sampleCsvContent "sample_logs.csv")

/-- Lines 34 to 148 of the script: everything between piping the archive and
finalizing it. -/
def analyzerEffect (dirname : Path) (fs : Node) : Effect :=
  (Effect.seq (filesToInclude.map (fileEffect dirname fs))).andThen
    ((guiEffect dirname fs).andThen
      ((aiEffect dirname fs).andThen inlineEffect))

/-- The output directory. -/
def outputDirOf (dirname : Path) : Path := dirname ++ ["Front-End", "public", "downloads"]

/-- Lines 11 to 13 of the script on the filesystem: the filesystem after them
and the calls made, or none when `mkdirSync` throws. -/
def ensureDir (fs : Node) (out : Path) : Option (Node × List FsCall) :=
  if (fs.find out).isSome then some (fs, [])
  else (fs.mkdirp out).map (fun fs' => (fs', [FsCall.mkdir out]))

/-- What a job does as a whole: `out` is the output directory, `zipName` the
archive file, `body` the summary of what is queued and printed between piping
and finalizing, `done` the closing message. -/
def jobResult (out : Path) (zipName : String) (body : Node → Effect) (done : String)
    (s : St) : Res Unit :=
  match ensureDir s.fs out with
  | none => .throw (.mkdirFailed out) { s with trace := s.trace ++ [.mkdir out] }
  | some (fs1, calls) =>
    let zip := out ++ [zipName]
    let fs2 := (fs1.openWrite zip).getD fs1
    let E := body fs2
    let s2 : St :=
      { fs := fs2
        console := s.console ++ E.console
        trace := s.trace ++ calls ++ [.openWrite zip]
        entries := E.entries
        dest := some ⟨zip, (fs1.openWrite zip).isSome⟩ }
    match E.err with
    | some er => .throw er s2
    | none =>
      if (fs1.openWrite zip).isSome then .ok () { s2 with console := s2.console ++ [.log done] }
      else .abort s2

/-! ## Vocabulary of the statements -/

/-- Whether a path resolves to a regular file. -/
def isRegular : Option Node → Bool
  | some (.file _) => true
  | _ => false

/-- Whether a path resolves to a directory. -/
def isDirectory : Option Node → Bool
  | some (.dir _) => true
  | _ => false

/-- The names listed in the directory at `p`, in listing order (empty when `p`
is not a directory). -/
def listing (fs : Node) (p : Path) : List String :=
  match fs.find p with
  | some (.dir es) => es.map Prod.fst
  | _ => []

/-- The six model directory names the analyzer job handles. -/
def allModelDirs : List String := "main-federated-roberta-model" :: otherModelDirs

/-- The names listed in the model directory `m` that resolve to a regular file. -/
def regularChildren (dirname : Path) (fs : Node) (m : String) : List String :=
  (listing fs (dirname ++ ["AI", m])).filter
    (fun c => isRegular (fs.find (dirname ++ ["AI", m, c])))

/-- Every model path that exists is a directory, so that `readdirSync` does
not throw. -/
def modelsListable (dirname : Path) (fs : Node) : Bool :=
  allModelDirs.all (fun m =>
    match fs.find (dirname ++ ["AI", m]) with
    | some (.dir _) => true
    | some _ => false
    | none => true)

/-- The output directory exists or `mkdirSync` can create it. -/
def outputDirAvailable (dirname : Path) (fs : Node) : Bool :=
  (ensureDir fs (outputDirOf dirname)).isSome

/-- The output directory is available and the write stream on the archive
file `zipName` opens. -/
def outputWritable (dirname : Path) (zipName : String) (fs : Node) : Bool :=
  match ensureDir fs (outputDirOf dirname) with
  | some (fs1, _) => (fs1.openWrite (outputDirOf dirname ++ [zipName])).isSome
  | none => false

/-- Whether `p` is a prefix of `s`, character by character. -/
def startsWith (p s : String) : Bool := p.data.isPrefixOf s.data

/-- The text of a warning line, none for another kind of line. -/
def Line.warning? : Line → Option String
  | .warn s => some s
  | _ => none

/-- The warnings in a console output, in order. -/
def warnings (c : List Line) : List String := c.filterMap Line.warning?

/-- The error a run ended with, if it ended by a throw. -/
def Res.error? {α : Type} : Res α → Option Err
  | .throw e _ => some e
  | _ => none

/-- The entries of the model directory `m`: its marker and one entry for each
listed name that resolves to a regular file; nothing when `m` is absent. -/
def modelBlock (dirname : Path) (fs : Node) (m : String) : List Entry :=
  if (fs.find (dirname ++ ["AI", m])).isSome then
    ⟨"AI/" ++ m ++ "/", .marker⟩ ::
      (regularChildren dirname fs m).map
        (fun c => ⟨"AI/" ++ m ++ "/" ++ c, .path (dirname ++ ["AI", m, c])⟩)
  else []

/-- The error `readdirSync` throws on the model path `m`, if any. -/
def modelErr (dirname : Path) (fs : Node) (m : String) : Option Err :=
  match fs.find (dirname ++ ["AI", m]) with
  | some (.dir _) => none
  | some _ => some (.notADirectory (dirname ++ ["AI", m]))
  | none => none

/-- The entries queued by a run of the analyzer job that no error stops. -/
def expectedEntries (dirname : Path) (fs : Node) : List Entry :=
  (filesToInclude.filter (fun f => (fs.find (dirname ++ [f])).isSome)).map
      (fun f => ⟨basename f, .path (dirname ++ [f])⟩)
    ++ (if (fs.find (dirname ++ ["AI", "log_analyzer_gui.py"])).isSome then
          [⟨"log_analyzer_gui.py", .path (dirname ++ ["AI", "log_analyzer_gui.py"])⟩] else [])
    ++ (if (fs.find (dirname ++ ["AI"])).isSome then
          ⟨"AI/", .marker⟩ :: (allModelDirs.map (modelBlock dirname fs)).flatten
        else [])
    ++ [⟨"README.md", .text analyzerReadmeContent⟩, ⟨"sample_logs.csv", .text sampleCsvContent⟩]

/-- The lines printed between piping and finalizing by a run of the analyzer
job that no error stops. -/
def expectedConsole (dirname : Path) (fs : Node) : List Line :=
  (filesToInclude.filter (fun f => !(fs.find (dirname ++ [f])).isSome)).map
      (fun f => Line.warn ("Warning: File not found: " ++ f))
    ++ (if (fs.find (dirname ++ ["AI", "log_analyzer_gui.py"])).isSome then []
        else [Line.warn "Warning: File not found: AI/log_analyzer_gui.py"])
    ++ (if (fs.find (dirname ++ ["AI"])).isSome then
          (if (fs.find (dirname ++ ["AI", "main-federated-roberta-model"])).isSome then
            (regularChildren dirname fs "main-federated-roberta-model").map
              (fun c => Line.log ("Adding model file: " ++ c))
           else
            [Line.warn ("Warning: Model directory not found: " ++
              showPath (dirname ++ ["AI", "main-federated-roberta-model"]))])
          ++ (otherModelDirs.filter (fun m => (fs.find (dirname ++ ["AI", m])).isSome)).map
              (fun m => Line.log ("Adding additional model: " ++ m))
        else [Line.warn ("Warning: AI directory not found: " ++ showPath (dirname ++ ["AI"]))])

/-- Two filesystems resolve alike every path below the script directory that
does not start with `Front-End`. -/
def Agree (dirname : Path) (fs fs' : Node) : Prop :=
  ∀ (b : String) (q : Path), b ≠ "Front-End" →
    fs'.find (dirname ++ b :: q) = fs.find (dirname ++ b :: q)

/-- The six individual source files of the analyzer job: the path below the
script directory and the label used in the warning; the name inside the
archive is the base name of the label. -/
def individualSources : List (Path × String) :=
  filesToInclude.map (fun f => ([f], f)) ++
    [(["AI", "log_analyzer_gui.py"], "AI/log_analyzer_gui.py")]

/-- What a job does about its output directory, `s` being the state it starts
in and `r` its result.

* When the directory does not exist and `mkdirSync` can create it, the calls
  are `mkdirSync` and then `createWriteStream`; afterwards the directory and
  all its ancestors are directories and the archive is a regular file.
* When the path exists, `mkdirSync` is not called, and no entry of the
  directory other than the archive is changed; if moreover it is a directory
  and the archive path is not one, afterwards the archive file is present. -/
def PreparesOutput (dirname : Path) (zipName : String) (s : St) (r : Res Unit) : Prop :=
  ((s.fs.find (outputDirOf dirname)).isSome = false →
    (s.fs.mkdirp (outputDirOf dirname)).isSome = true →
      r.state.trace = s.trace ++
        [.mkdir (outputDirOf dirname), .openWrite (outputDirOf dirname ++ [zipName])] ∧
      (∀ p, p <+: outputDirOf dirname → isDirectory (r.state.fs.find p) = true) ∧
      isRegular (r.state.fs.find (outputDirOf dirname ++ [zipName])) = true) ∧
  ((s.fs.find (outputDirOf dirname)).isSome = true →
      r.state.trace = s.trace ++ [.openWrite (outputDirOf dirname ++ [zipName])] ∧
      (∀ c q, c ≠ zipName →
        r.state.fs.find (outputDirOf dirname ++ c :: q) =
          s.fs.find (outputDirOf dirname ++ c :: q)) ∧
      (isDirectory (s.fs.find (outputDirOf dirname)) = true →
        isDirectory (s.fs.find (outputDirOf dirname ++ [zipName])) = false →
          isDirectory (r.state.fs.find (outputDirOf dirname)) = true ∧
          (r.state.fs.find (outputDirOf dirname ++ [zipName])).isSome = true))

/-! ## Filesystems used as concrete inputs -/

/-- A complete checkout in `/repo`: the six individual files, the six model
directories (with regular files and a subdirectory), no output directory yet. -/
def fsComplete : Node :=
  .dir [("repo", .dir [
    ("log_analyzer_tool.py", .file "tool"),
    ("requirements.txt", .file "torch"),
    ("start_log_analyzer_gui.bat", .file "bat"),
    ("log_analyzer_readme.md", .file "readme"),
    ("test_model_path.py", .file "test"),
    ("AI", .dir [
      ("log_analyzer_gui.py", .file "gui"),
      ("main-federated-roberta-model", .dir [
        ("config.json", .file "cfg"),
        ("checkpoint", .dir [("state.bin", .file "ckpt")]),
        ("model.bin", .file "weights")]),
      ("bert-log-model", .dir [("model.bin", .file "b")]),
      ("bgl-bert-base-model", .dir []),
      ("bgl-roberta-model", .dir [("vocab.json", .file "v")]),
      ("hdfs_roberta_model", .dir []),
      ("roberta-log-model", .dir [("merges.txt", .file "m")])])])]

/-- A checkout in which `AI/bert-log-model` is a regular file, with
`requirements.txt` and the main model directory missing. -/
def fsModelIsFile : Node :=
  .dir [("repo", .dir [
    ("log_analyzer_tool.py", .file "tool"),
    ("AI", .dir [
      ("log_analyzer_gui.py", .file "gui"),
      ("bert-log-model", .file "not a directory")])])]

/-- A checkout in which `Front-End` is a regular file, so that the output
directory cannot be created. -/
def fsOutputBlocked : Node :=
  .dir [("repo", .dir [
    ("log_analyzer_tool.py", .file "tool"),
    ("requirements.txt", .file "torch"),
    ("start_log_analyzer_gui.bat", .file "bat"),
    ("log_analyzer_readme.md", .file "readme"),
    ("test_model_path.py", .file "test"),
    ("Front-End", .file "not a directory"),
    ("AI", .dir [
      ("log_analyzer_gui.py", .file "gui"),
      ("main-federated-roberta-model", .dir [("model.bin", .file "weights")]),
      ("bert-log-model", .dir []),
      ("bgl-bert-base-model", .dir []),
      ("bgl-roberta-model", .dir []),
      ("hdfs_roberta_model", .dir []),
      ("roberta-log-model", .dir [])])])]

/-- A checkout with only the main model directory: the five directories of
`otherModelDirs` are missing; the output directory exists. -/
def fsMainModelOnly : Node :=
  .dir [("repo", .dir [
    ("log_analyzer_tool.py", .file "tool"),
    ("requirements.txt", .file "torch"),
    ("start_log_analyzer_gui.bat", .file "bat"),
    ("log_analyzer_readme.md", .file "readme"),
    ("test_model_path.py", .file "test"),
    ("Front-End", .dir [("public", .dir [("downloads", .dir [("old.zip", .file "old")])])]),
    ("AI", .dir [
      ("log_analyzer_gui.py", .file "gui"),
      ("main-federated-roberta-model", .dir [("model.bin", .file "weights")])])])]

/-- A checkout in which `requirements.txt` is a directory and there is no `AI`. -/
def fsFileIsDir : Node :=
  .dir [("repo", .dir [
    ("log_analyzer_tool.py", .file "tool"),
    ("requirements.txt", .dir [("base.txt", .file "torch")])])]

/-- A directory `/repo` that holds nothing but a regular file `Front-End`. -/
def fsBlockedEmpty : Node :=
  .dir [("repo", .dir [("Front-End", .file "not a directory")])]

/-! ## Facts about the filesystem tree -/

theorem lookup_map_replace (es : List (String × Node)) (name k : String) (v : Node) :
    (es.map (fun e => if e.1 = name then (e.1, v) else e)).lookup k =
      if k = name then (es.lookup k).map (fun _ => v) else es.lookup k := by
  induction es with
  | nil => simp
  | cons e t ih =>
    obtain ⟨a, b⟩ := e
    by_cases ha : a = name
    · by_cases hk : k = a
      · subst ha; subst hk; simp [List.lookup_cons]
      · have hk2 : (k == a) = false := by simpa using hk
        subst ha
        simp only [List.map_cons, if_true, List.lookup_cons, hk2, ih]
    · by_cases hk : k = a
      · subst hk; simp [List.lookup_cons, ha]
      · have hk2 : (k == a) = false := by simpa using hk
        simp only [List.map_cons, if_neg ha, List.lookup_cons, hk2, ih]

theorem lookup_setEntry (es : List (String × Node)) (name k : String) (v : Node) :
    (setEntry es name v).lookup k = if k = name then some v else es.lookup k := by
  unfold setEntry
  by_cases h : (es.lookup name).isSome = true
  · rw [if_pos h, lookup_map_replace]
    by_cases hk : k = name
    · subst hk
      obtain ⟨w, hw⟩ := Option.isSome_iff_exists.mp h
      simp [hw]
    · simp [hk]
  · rw [if_neg h, List.lookup_append]
    have hn : es.lookup name = none := by
      cases hl : es.lookup name with
      | none => rfl
      | some w => simp [hl] at h
    by_cases hk : k = name
    · subst hk; simp [hn]
    · have hk2 : (k == name) = false := by simpa using hk
      simp [hk, List.lookup_cons, hk2]

theorem lookup_setEntry_self (es : List (String × Node)) (name : String) (v : Node) :
    (setEntry es name v).lookup name = some v := by
  simp [lookup_setEntry]

theorem lookup_setEntry_ne (es : List (String × Node)) {name k : String} (v : Node)
    (h : k ≠ name) : (setEntry es name v).lookup k = es.lookup k := by
  simp [lookup_setEntry, h]

@[simp] theorem find_nil (n : Node) : n.find [] = some n := by
  cases n <;> rfl

theorem find_cons (n : Node) (c : String) (rest : Path) :
    n.find (c :: rest) = (n.child c).bind (fun ch => ch.find rest) := by
  cases h : n.child c <;> simp [Node.find, h]

theorem find_append (n : Node) (p q : Path) :
    n.find (p ++ q) = (n.find p).bind (fun m => m.find q) := by
  induction p generalizing n with
  | nil => simp
  | cons c rest ih =>
    simp only [List.cons_append, find_cons]
    cases n.child c with
    | none => rfl
    | some ch => simpa using ih ch

theorem find_snoc (n : Node) (p : Path) (c : String) :
    n.find (p ++ [c]) = (n.find p).bind (fun m => m.child c) := by
  rw [find_append]
  congr 1
  funext m
  simp [find_cons]

@[simp] theorem child_dir (es : List (String × Node)) (c : String) :
    (Node.dir es).child c = es.lookup c := rfl

@[simp] theorem child_file (t c : String) : (Node.file t).child c = none := rfl

@[simp] theorem child_special (c : String) : Node.special.child c = none := rfl

theorem mkdirp_dir_cons (es : List (String × Node)) (c : String) (rest : Path) :
    (Node.dir es).mkdirp (c :: rest) =
      ((match es.lookup c with
        | some ch => ch.mkdirp rest
        | none => (Node.dir []).mkdirp rest).map (fun ch' => Node.dir (setEntry es c ch'))) := by
  rw [Node.mkdirp]
  cases es.lookup c <;> rfl

theorem mkdirp_cons_some {n n' : Node} {c : String} {rest : Path}
    (h : n.mkdirp (c :: rest) = some n') :
    ∃ es ch', n = .dir es ∧ n' = .dir (setEntry es c ch') ∧
      (match es.lookup c with
        | some ch => ch.mkdirp rest
        | none => (Node.dir []).mkdirp rest) = some ch' := by
  cases n with
  | file t => simp [Node.mkdirp] at h
  | special => simp [Node.mkdirp] at h
  | dir es =>
    rw [mkdirp_dir_cons] at h
    obtain ⟨ch', h1, h2⟩ := Option.map_eq_some'.mp h
    exact ⟨es, ch', rfl, h2.symm, h1⟩

theorem mkdirp_find_other {a b : String} (hab : b ≠ a) (d r q : Path) :
    ∀ (n n' : Node), n.mkdirp (d ++ a :: r) = some n' →
      n'.find (d ++ b :: q) = n.find (d ++ b :: q) := by
  induction d with
  | nil =>
    intro n n' h
    obtain ⟨es, ch', rfl, rfl, _⟩ := mkdirp_cons_some h
    simp [find_cons, lookup_setEntry_ne es ch' hab]
  | cons c d ih =>
    intro n n' h
    obtain ⟨es, ch', rfl, rfl, h3⟩ := mkdirp_cons_some h
    simp only [List.cons_append, find_cons, child_dir, lookup_setEntry_self, Option.some_bind]
    cases hl : es.lookup c with
    | some ch =>
      rw [hl] at h3
      simpa using ih ch ch' h3
    | none =>
      rw [hl] at h3
      have h4 := ih _ _ h3
      simp only [Option.some_bind, Option.none_bind, h4]
      cases d <;> simp [find_cons]

theorem mkdirp_find_self : ∀ (p : Path) (n n' : Node), n.mkdirp p = some n' →
    ∃ es, n'.find p = some (.dir es) := by
  intro p
  induction p with
  | nil =>
    intro n n' h
    cases n with
    | file t => simp [Node.mkdirp] at h
    | special => simp [Node.mkdirp] at h
    | dir es =>
      simp [Node.mkdirp] at h
      exact ⟨es, by simp [← h]⟩
  | cons c rest ih =>
    intro n n' h
    obtain ⟨es, ch', rfl, rfl, h3⟩ := mkdirp_cons_some h
    simp only [find_cons, child_dir, lookup_setEntry_self, Option.some_bind]
    cases hl : es.lookup c with
    | some ch => rw [hl] at h3; exact ih _ _ h3
    | none => rw [hl] at h3; exact ih _ _ h3

theorem mkdirp_fresh : ∀ (p : Path) (n n' : Node), n.find p = none → n.mkdirp p = some n' →
    n'.find p = some (.dir []) := by
  intro p
  induction p with
  | nil => intro n n' h; simp at h
  | cons c rest ih =>
    intro n n' hf h
    obtain ⟨es, ch', rfl, rfl, h3⟩ := mkdirp_cons_some h
    simp only [find_cons, child_dir, lookup_setEntry_self, Option.some_bind]
    simp only [find_cons, child_dir] at hf
    cases hl : es.lookup c with
    | some ch =>
      rw [hl] at h3 hf
      exact ih _ _ (by simpa using hf) h3
    | none =>
      rw [hl] at h3
      cases rest with
      | nil => simp [Node.mkdirp] at h3; simp [← h3]
      | cons c2 r2 => exact ih _ _ (by simp [find_cons]) h3

theorem openWrite_dir_cons (es : List (String × Node)) (c : String) {rest : Path}
    (hr : rest ≠ []) :
    (Node.dir es).openWrite (c :: rest) =
      (match es.lookup c with
        | some ch => (ch.openWrite rest).map (fun ch' => Node.dir (setEntry es c ch'))
        | none => none) := by
  cases rest with
  | nil => exact absurd rfl hr
  | cons c2 r2 =>
    rw [Node.openWrite]
    intro x
    simp at x

theorem openWrite_cons_some {n n' : Node} {c : String} {rest : Path} (hr : rest ≠ [])
    (h : n.openWrite (c :: rest) = some n') :
    ∃ es ch ch', n = .dir es ∧ es.lookup c = some ch ∧ ch.openWrite rest = some ch' ∧
      n' = .dir (setEntry es c ch') := by
  cases n with
  | file t => simp [Node.openWrite] at h
  | special => simp [Node.openWrite] at h
  | dir es =>
    rw [openWrite_dir_cons es c hr] at h
    cases hl : es.lookup c with
    | none => simp [hl] at h
    | some ch =>
      simp only [hl] at h
      obtain ⟨ch', h1, h2⟩ := Option.map_eq_some'.mp h
      exact ⟨es, ch, ch', rfl, hl, h1, h2.symm⟩

theorem openWrite_single_some {n n' : Node} {c : String} (h : n.openWrite [c] = some n') :
    ∃ es, n = .dir es ∧
      ((es.lookup c = some .special ∧ n' = .dir es) ∨
       ((es.lookup c = none ∨ ∃ t, es.lookup c = some (.file t)) ∧
          n' = .dir (setEntry es c (.file "")))) := by
  cases n with
  | file t => simp [Node.openWrite] at h
  | special => simp [Node.openWrite] at h
  | dir es =>
    refine ⟨es, rfl, ?_⟩
    cases hl : es.lookup c with
    | none =>
      simp [Node.openWrite, hl] at h
      exact Or.inr ⟨Or.inl rfl, h.symm⟩
    | some ch =>
      cases ch with
      | file t =>
        simp [Node.openWrite, hl] at h
        exact Or.inr ⟨Or.inr ⟨t, rfl⟩, h.symm⟩
      | special =>
        simp [Node.openWrite, hl] at h
        exact Or.inl ⟨rfl, h.symm⟩
      | dir es2 => simp [Node.openWrite, hl] at h

theorem openWrite_find_other {a b : String} (hab : b ≠ a) (d r q : Path) :
    ∀ (n n' : Node), n.openWrite (d ++ a :: r) = some n' →
      n'.find (d ++ b :: q) = n.find (d ++ b :: q) := by
  induction d with
  | nil =>
    intro n n' h
    cases r with
    | nil =>
      obtain ⟨es, rfl, h2 | h2⟩ := openWrite_single_some h
      · rw [h2.2]
      · rw [h2.2]; simp [find_cons, lookup_setEntry_ne es _ hab]
    | cons r1 r2 =>
      obtain ⟨es, ch, ch', rfl, _, _, rfl⟩ := openWrite_cons_some (by simp) h
      simp [find_cons, lookup_setEntry_ne es ch' hab]
  | cons c d ih =>
    intro n n' h
    obtain ⟨es, ch, ch', rfl, h2, h3, rfl⟩ := openWrite_cons_some (by simp) h
    simp only [List.cons_append, find_cons, child_dir, lookup_setEntry_self, Option.some_bind, h2]
    exact ih _ _ h3

/-- What opening `p ++ [c]` for writing needs and does: the parent `p` is a
directory before and after, and the target is afterwards an empty regular file
or the special node that was there. -/
theorem openWrite_snoc_some : ∀ (p : Path) (c : String) (n n' : Node),
    n.openWrite (p ++ [c]) = some n' →
    (∃ es, n.find p = some (.dir es)) ∧ (∃ es', n'.find p = some (.dir es')) ∧
      (n'.find (p ++ [c]) = some (.file "") ∨ n'.find (p ++ [c]) = some .special) := by
  intro p
  induction p with
  | nil =>
    intro c n n' h
    obtain ⟨es, rfl, h2 | h2⟩ := openWrite_single_some h
    · rw [h2.2]; exact ⟨⟨es, by simp⟩, ⟨es, by simp⟩, Or.inr (by simp [find_cons, h2.1])⟩
    · rw [h2.2]
      exact ⟨⟨es, by simp⟩, ⟨setEntry es c (.file ""), by simp⟩,
        Or.inl (by simp [find_cons, lookup_setEntry_self])⟩
  | cons x p ih =>
    intro c n n' h
    obtain ⟨es, ch, ch', rfl, h2, h3, rfl⟩ := openWrite_cons_some (by simp) h
    obtain ⟨⟨e1, h4⟩, ⟨e2, h5⟩, h6⟩ := ih c ch ch' h3
    refine ⟨⟨e1, by simp [find_cons, h2, h4]⟩, ⟨e2, by simp [find_cons, lookup_setEntry_self, h5]⟩, ?_⟩
    simpa [find_cons, lookup_setEntry_self] using h6

/-- Opening `p ++ [c]` for writing succeeds as soon as `p` is a directory in
which `c` is not a directory. -/
theorem openWrite_snoc_isSome : ∀ (p : Path) (c : String) (n : Node) (es : List (String × Node)),
    n.find p = some (.dir es) → (∀ es2, es.lookup c ≠ some (.dir es2)) →
    (n.openWrite (p ++ [c])).isSome = true := by
  intro p
  induction p with
  | nil =>
    intro c n es h hc
    simp at h
    subst h
    cases hl : es.lookup c with
    | none => simp [Node.openWrite, hl]
    | some ch =>
      cases ch with
      | file t => simp [Node.openWrite, hl]
      | special => simp [Node.openWrite, hl]
      | dir es2 => exact absurd hl (hc es2)
  | cons x p ih =>
    intro c n es h hc
    cases n with
    | file t => simp [find_cons] at h
    | special => simp [find_cons] at h
    | dir es0 =>
      simp only [find_cons, child_dir] at h
      cases hl : es0.lookup x with
      | none => simp [hl] at h
      | some ch =>
        simp only [hl, Option.some_bind] at h
        have := ih c ch es h hc
        rw [List.cons_append, openWrite_dir_cons es0 x (by simp)]
        simp only [hl]
        obtain ⟨w, hw⟩ := Option.isSome_iff_exists.mp this
        simp [hw]

/-! ## Running code -/

theorem bind_apply {α β : Type} (m : M α) (f : α → M β) (s : St) :
    (m >>= f) s =
      match m s with
      | .ok a s' => f a s'
      | .throw e s' => .throw e s'
      | .abort s' => .abort s' := rfl

theorem pure_apply {α : Type} (a : α) (s : St) : (pure a : M α) s = .ok a s := rfl

theorem forEach_nil {α : Type} (body : α → M Unit) (s : St) :
    forEach [] body s = .ok () s := rfl

theorem forEach_cons {α : Type} (x : α) (xs : List α) (body : α → M Unit) (s : St) :
    forEach (x :: xs) body s =
      match body x s with
      | .ok _ s' => forEach xs body s'
      | .throw e s' => .throw e s'
      | .abort s' => .abort s' := by
  rw [forEach, bind_apply]
  cases body x s <;> rfl

theorem run_skip (s : St) : Effect.skip.run s = .ok () s := by
  simp [Effect.run, Effect.skip]

theorem run_fs (e : Effect) (s : St) : (e.run s).state.fs = s.fs := by
  unfold Effect.run
  cases e.err <;> rfl

theorem run_andThen (a b : Effect) (s : St) :
    (a.andThen b).run s =
      match a.run s with
      | .ok _ s' => b.run s'
      | .throw e s' => .throw e s'
      | .abort s' => .abort s' := by
  unfold Effect.andThen Effect.run
  cases ha : a.err with
  | some e => simp [ha]
  | none =>
    cases hb : b.err <;> simp [ha, hb]

/-- A loop whose body is summarised, on every state with filesystem `fs`, by
`F x` is summarised by the sequence of the `F x`. -/
theorem forEach_run {α : Type} (fs : Node) (body : α → M Unit) (F : α → Effect)
    (h : ∀ x s, s.fs = fs → body x s = (F x).run s) :
    ∀ (xs : List α) (s : St), s.fs = fs → forEach xs body s = (Effect.seq (xs.map F)).run s := by
  intro xs
  induction xs with
  | nil => intro s _; simp [forEach_nil, Effect.seq, run_skip]
  | cons x xs ih =>
    intro s hs
    rw [forEach_cons, h x s hs, List.map_cons, Effect.seq, run_andThen]
    cases hr : (F x).run s with
    | ok a s' =>
      have : s'.fs = fs := by
        have := run_fs (F x) s
        rw [hr] at this
        simpa [Res.state, hs] using this
      simpa using ih s' this
    | throw e s' => rfl
    | abort s' => rfl

/-! ## Symbolic evaluation of blocks into summaries -/

theorem run_fail (e : Err) (s : St) : (Effect.fail e).run s = .throw e s := by
  simp [Effect.run, Effect.fail]

theorem run_ok_fs {e : Effect} {s s' : St} {a : Unit} (h : e.run s = .ok a s') : s'.fs = s.fs := by
  have := run_fs e s
  rw [h] at this
  exact this

theorem archiveFile_eq (p : Path) (name : String) :
    archiveFile p name = runF (fun _ => Effect.file p name) := by
  funext s; simp [archiveFile, runF, Effect.run, Effect.file]

theorem archiveAppendNull_eq (name : String) :
    archiveAppendNull name = runF (fun _ => Effect.marker name) := by
  funext s; simp [archiveAppendNull, runF, Effect.run, Effect.marker]

theorem archiveAppend_eq (content name : String) :
    archiveAppend content name = runF (fun _ => Effect.text content name) := by
  funext s; simp [archiveAppend, runF, Effect.run, Effect.text]

theorem consoleLog_eq (msg : String) :
    consoleLog msg = runF (fun _ => Effect.log msg) := by
  funext s; simp [consoleLog, runF, Effect.run, Effect.log]

theorem consoleWarn_eq (msg : String) :
    consoleWarn msg = runF (fun _ => Effect.warn msg) := by
  funext s; simp [consoleWarn, runF, Effect.run, Effect.warn]

theorem pure_eq : (pure PUnit.unit : M PUnit) = runF (fun _ => Effect.skip) := by
  funext s; simp [runF, run_skip, pure_apply]

theorem runF_bind_runF (A B : Node → Effect) :
    (runF A >>= fun _ => runF B) = runF (fun fs => (A fs).andThen (B fs)) := by
  funext s
  simp only [bind_apply, runF, run_andThen]
  cases h : (A s.fs).run s with
  | ok a s' => simp [run_ok_fs h]
  | throw e s' => rfl
  | abort s' => rfl

theorem runF_bind_eff (A B : Node → Effect) (k : M Unit) :
    (runF A >>= fun _ => eff B k) = eff (fun fs => (A fs).andThen (B fs)) k := by
  funext s
  simp only [eff, bind_apply, runF, run_andThen]
  cases h : (A s.fs).run s with
  | ok a s' => simp [run_ok_fs h]
  | throw e s' => rfl
  | abort s' => rfl

theorem exists_runF (p : Path) (A B : Node → Effect) :
    (existsSync p >>= fun b => if b = true then runF A else runF B) =
      runF (fun fs => if (fs.find p).isSome then A fs else B fs) := by
  funext s
  simp only [bind_apply, existsSync, runF]
  split <;> rfl

theorem exists_eff (p : Path) (A B : Node → Effect) (k : M Unit) :
    (existsSync p >>= fun b => if b = true then eff A k else eff B k) =
      eff (fun fs => if (fs.find p).isSome then A fs else B fs) k := by
  funext s
  simp only [bind_apply, existsSync, runF, eff]
  split <;> rfl

theorem stat_runF (p : Path) (A B : Node → Effect) :
    (statIsFile p >>= fun b => if b = true then runF A else runF B) =
      runF (fun fs => Effect.whenFile (fs.find p) (A fs) (B fs) (.noSuchEntry p)) := by
  funext s
  simp only [bind_apply, statIsFile, runF, Effect.whenFile]
  cases h : s.fs.find p with
  | none => simp [run_fail]
  | some n => cases n <;> simp [runF]

theorem readdir_runF (p : Path) (K : List String → Node → Effect) :
    (readdirSync p >>= fun names => runF (K names)) =
      runF (fun fs => Effect.whenDir (fs.find p) (fun names => K names fs) (.notADirectory p)) := by
  funext s
  simp only [bind_apply, readdirSync, runF, Effect.whenDir]
  cases h : s.fs.find p with
  | none => simp [run_fail]
  | some n => cases n <;> simp [run_fail]

theorem readdir_eff (p : Path) (K : List String → Node → Effect) (k : M Unit) :
    (readdirSync p >>= fun names => eff (K names) k) =
      eff (fun fs => Effect.whenDir (fs.find p) (fun names => K names fs) (.notADirectory p)) k := by
  funext s
  simp only [bind_apply, readdirSync, runF, eff, Effect.whenDir]
  cases h : s.fs.find p with
  | none => simp [run_fail]
  | some n => cases n <;> simp [run_fail]

theorem forEach_runF {α : Type} (xs : List α) (F : α → Node → Effect) :
    forEach xs (fun x => runF (F x)) = runF (fun fs => Effect.seq (xs.map (fun x => F x fs))) := by
  funext s
  exact forEach_run s.fs _ (fun x => F x s.fs) (fun x t ht => by simp [runF, ht]) xs s rfl

theorem find_two (fs : Node) (d : Path) (a b : String) :
    fs.find (d ++ [a, b]) = (fs.find (d ++ [a])).bind (fun n => n.child b) := by
  have : d ++ [a, b] = (d ++ [a]) ++ [b] := by simp
  rw [this, find_snoc]

theorem andThen_assoc (a b c : Effect) : (a.andThen b).andThen c = a.andThen (b.andThen c) := by
  unfold Effect.andThen
  cases ha : a.err with
  | some e => simp [ha]
  | none =>
    cases hb : b.err with
    | some e => simp [ha, hb]
    | none => simp [ha, hb]

theorem andThen_skip (a : Effect) : a.andThen .skip = a := by
  unfold Effect.andThen Effect.skip
  cases ha : a.err with
  | some e => simp [ha]
  | none => cases a; simp_all

theorem ite_andThen (c : Prop) [Decidable c] (a b r : Effect) :
    (if c then a else b).andThen r = if c then a.andThen r else b.andThen r := by
  split <;> rfl

theorem fail_andThen (e : Err) (r : Effect) : (Effect.fail e).andThen r = Effect.fail e := by
  simp [Effect.andThen, Effect.fail]

theorem whenDir_andThen (n : Option Node) (k : List String → Effect) (e : Err) (r : Effect) :
    (Effect.whenDir n k e).andThen r = Effect.whenDir n (fun names => (k names).andThen r) e := by
  unfold Effect.whenDir
  cases n with
  | none => simp [fail_andThen]
  | some m => cases m <;> simp [fail_andThen]

theorem tail_eff (k : M Unit) : k = eff (fun _ => Effect.skip) k := by
  funext s
  simp [eff, runF, run_skip, bind_apply]

/-- From the archiver call to the end of a job. -/
theorem job_tail (body : Node → Effect) (done : String) (w : WriteStream) (s : St) :
    (archiver >>= fun _ => archivePipe w >>= fun _ =>
        eff body (archiveFinalize >>= fun _ => runF (fun _ => Effect.log done))) s =
      match (body s.fs).err with
      | some er =>
        .throw er { s with console := s.console ++ (body s.fs).console,
                           entries := (body s.fs).entries, dest := some w }
      | none =>
        if w.opens then
          .ok () { s with console := s.console ++ (body s.fs).console ++ [.log done],
                          entries := (body s.fs).entries, dest := some w }
        else
          .abort { s with console := s.console ++ (body s.fs).console,
                          entries := (body s.fs).entries, dest := some w } := by
  obtain ⟨wp, wo⟩ := w
  simp only [bind_apply, archiver, archivePipe, eff, runF, Effect.run, List.nil_append]
  cases he : (body s.fs).err with
  | some er => simp
  | none =>
    cases wo <;> simp [archiveFinalize, Effect.log]

/-- The shape shared by the two jobs: output directory, stream, archiver, a
summarised body, finalize, closing message. -/
theorem job_shape (out : Path) (zipName : String) (body : Node → Effect) (done : String) (s : St) :
    (existsSync out >>= fun b =>
      if (!b) = true then
        mkdirSync out >>= fun _ =>
          createWriteStream (out ++ [zipName]) >>= fun output =>
            archiver >>= fun _ => archivePipe output >>= fun _ =>
              eff body (archiveFinalize >>= fun _ => runF (fun _ => Effect.log done))
      else
        runF (fun _ => Effect.skip) >>= fun _ =>
          createWriteStream (out ++ [zipName]) >>= fun output =>
            archiver >>= fun _ => archivePipe output >>= fun _ =>
              eff body (archiveFinalize >>= fun _ => runF (fun _ => Effect.log done))) s =
      jobResult out zipName body done s := by
  rw [bind_apply]
  simp only [existsSync, jobResult, ensureDir]
  cases hf : (s.fs.find out).isSome with
  | true =>
    simp only [Bool.not_true, Bool.false_eq_true, if_false, if_true]
    rw [bind_apply]
    simp only [runF, run_skip]
    rw [bind_apply]
    simp only [createWriteStream]
    cases ho : s.fs.openWrite (out ++ [zipName]) with
    | none =>
      simp only [job_tail, Option.getD_none, Option.isSome_none]
      cases he : (body s.fs).err <;> simp
    | some fs2 =>
      simp only [job_tail, Option.getD_some, Option.isSome_some]
      cases he : (body fs2).err <;> simp
  | false =>
    simp only [Bool.not_false, if_true, Bool.false_eq_true, if_false]
    rw [bind_apply]
    simp only [mkdirSync]
    cases hm : s.fs.mkdirp out with
    | none => simp
    | some fs1 =>
      simp only [Option.map_some']
      rw [bind_apply]
      simp only [createWriteStream]
      cases ho : fs1.openWrite (out ++ [zipName]) with
      | none =>
        simp only [job_tail, Option.getD_none, Option.isSome_none]
      | some fs2 =>
        simp only [job_tail, Option.getD_some, Option.isSome_some]

set_option maxHeartbeats 1000000 in
/-- The analyzer job in closed form. -/
theorem createLogAnalyzerZip_eq (dirname : Path) (s : St) :
    createLogAnalyzerZip dirname s =
      jobResult (outputDirOf dirname) "log_analyzer_tool.zip" (analyzerEffect dirname)
        "Log Analyzer Tool zip file created successfully!" s := by
  rw [← job_shape]
  unfold createLogAnalyzerZip
  simp only []
  rw [tail_eff (archiveFinalize >>= fun _ => consoleLog "Log Analyzer Tool zip file created successfully!")]
  simp only [archiveFile_eq, archiveAppendNull_eq, archiveAppend_eq, consoleLog_eq, consoleWarn_eq, pure_eq,
    runF_bind_runF, runF_bind_eff, exists_runF, exists_eff, stat_runF, readdir_runF, readdir_eff, forEach_runF]
  have key : ∀ (B C : Node → Effect) (k : M Unit), (∀ fs, B fs = C fs) → eff B k = eff C k := by
    intro B C k h
    have : B = C := funext h
    rw [this]
  rw [key _ (analyzerEffect dirname) _ ?_]
  · rfl
  · intro fs
    simp only [join, List.append_assoc, List.cons_append, List.nil_append]
    simp only [analyzerEffect, guiEffect, aiEffect, mainModelEffect, inlineEffect, andThen_assoc,
      ite_andThen, whenDir_andThen, andThen_skip]
    rfl

/-- The collector job in closed form. -/
theorem createLogCollectorZip_eq (dirname : Path) (s : St) :
    createLogCollectorZip dirname s =
      jobResult (outputDirOf dirname) "log_collector_tool.zip"
        (fun _ => Effect.text collectorReadmeContent "README.md")
        "Log Collector Tool zip file created successfully!" s := by
  rw [← job_shape]
  unfold createLogCollectorZip
  simp only []
  rw [tail_eff (archiveFinalize >>= fun _ => consoleLog "Log Collector Tool zip file created successfully!")]
  simp only [archiveAppend_eq, consoleLog_eq, pure_eq, runF_bind_eff, andThen_skip]
  rfl

/-! ## Reading a summary -/

theorem andThen_of_ok {a : Effect} (b : Effect) (h : a.err = none) :
    a.andThen b = ⟨a.entries ++ b.entries, a.console ++ b.console, b.err⟩ := by
  simp [Effect.andThen, h]

theorem andThen_of_err {a : Effect} (b : Effect) {e : Err} (h : a.err = some e) :
    a.andThen b = a := by
  simp [Effect.andThen, h]

theorem andThen_entries_sublist (a b : Effect) :
    (a.andThen b).entries.Sublist (a.entries ++ b.entries) := by
  cases h : a.err with
  | none => rw [andThen_of_ok b h]
  | some e => rw [andThen_of_err b h]; exact List.sublist_append_left _ _

theorem andThen_sublist {a b : Effect} {A B : List Entry} (ha : a.entries.Sublist A)
    (hb : b.entries.Sublist B) : (a.andThen b).entries.Sublist (A ++ B) :=
  (andThen_entries_sublist a b).trans (ha.append hb)

theorem seq_sublist (l : List Effect) :
    (Effect.seq l).entries.Sublist (l.map Effect.entries).flatten := by
  induction l with
  | nil => simp [Effect.seq, Effect.skip]
  | cons e l ih =>
    simp only [Effect.seq, List.map_cons, List.flatten_cons]
    exact andThen_sublist (List.Sublist.refl _) ih

theorem seq_of_ok (l : List Effect) (h : ∀ e ∈ l, e.err = none) :
    Effect.seq l = ⟨(l.map Effect.entries).flatten, (l.map Effect.console).flatten, none⟩ := by
  induction l with
  | nil => simp [Effect.seq, Effect.skip]
  | cons e l ih =>
    have he : e.err = none := h e (List.mem_cons_self _ _)
    have hl := ih (fun x hx => h x (List.mem_cons_of_mem _ hx))
    simp only [Effect.seq, andThen_of_ok _ he, hl, List.map_cons, List.flatten_cons]

theorem flatten_map_ite {α β : Type} (p : α → Bool) (f : α → β) (xs : List α) :
    (xs.map (fun x => if p x = true then [f x] else [])).flatten = (xs.filter p).map f := by
  induction xs with
  | nil => rfl
  | cons x xs ih =>
    simp only [List.map_cons, List.flatten_cons, ih, List.filter_cons]
    cases p x <;> simp

/-! ## What the job writes is apart from what it reads -/

theorem agree_refl (dirname : Path) (fs : Node) : Agree dirname fs fs := fun _ _ _ => rfl

theorem agree_trans {dirname : Path} {a b c : Node} (h1 : Agree dirname a b)
    (h2 : Agree dirname b c) : Agree dirname a c :=
  fun x q hx => (h2 x q hx).trans (h1 x q hx)

theorem agree_mkdirp {dirname : Path} {fs fs' : Node}
    (h : fs.mkdirp (outputDirOf dirname) = some fs') : Agree dirname fs fs' := by
  intro b q hb
  exact mkdirp_find_other hb dirname ["public", "downloads"] q fs fs' h

theorem agree_openWrite {dirname : Path} {zipName : String} {fs fs' : Node}
    (h : fs.openWrite (outputDirOf dirname ++ [zipName]) = some fs') : Agree dirname fs fs' := by
  intro b q hb
  have hp : outputDirOf dirname ++ [zipName] =
      dirname ++ "Front-End" :: ["public", "downloads", zipName] := by
    simp [outputDirOf]
  rw [hp] at h
  exact openWrite_find_other hb dirname _ q fs fs' h

theorem agree_ensureDir {dirname : Path} {fs fs1 : Node} {calls : List FsCall}
    (h : ensureDir fs (outputDirOf dirname) = some (fs1, calls)) : Agree dirname fs fs1 := by
  unfold ensureDir at h
  split at h
  · simp at h; rw [← h.1]; exact agree_refl _ _
  · obtain ⟨w, hw, h2⟩ := Option.map_eq_some'.mp h
    simp at h2
    rw [← h2.1]
    exact agree_mkdirp hw

theorem agree_getD_openWrite {dirname : Path} {zipName : String} (fs : Node) :
    Agree dirname fs ((fs.openWrite (outputDirOf dirname ++ [zipName])).getD fs) := by
  cases h : fs.openWrite (outputDirOf dirname ++ [zipName]) with
  | none => exact agree_refl _ _
  | some fs' => exact agree_openWrite h

theorem fileEffect_agree {dirname : Path} {fs fs' : Node} (h : Agree dirname fs fs')
    (f : String) (hf : f ≠ "Front-End") : fileEffect dirname fs' f = fileEffect dirname fs f := by
  simp only [fileEffect, h f [] hf]

theorem mainModelEffect_agree {dirname : Path} {fs fs' : Node} (h : Agree dirname fs fs') :
    mainModelEffect dirname fs' = mainModelEffect dirname fs := by
  have hc : mainChildEffect dirname fs' = mainChildEffect dirname fs := by
    funext c
    simp only [mainChildEffect, h "AI" _ (by decide)]
  simp only [mainModelEffect, h "AI" _ (by decide), hc]

theorem otherModelEffect_agree {dirname : Path} {fs fs' : Node} (h : Agree dirname fs fs') :
    otherModelEffect dirname fs' = otherModelEffect dirname fs := by
  funext m
  have hc : otherChildEffect dirname fs' m = otherChildEffect dirname fs m := by
    funext c
    simp only [otherChildEffect, h "AI" _ (by decide)]
  simp only [otherModelEffect, h "AI" _ (by decide), hc]

/-- What the analyzer job queues and prints depends only on paths apart from
the output directory. -/
theorem analyzerEffect_agree {dirname : Path} {fs fs' : Node} (h : Agree dirname fs fs') :
    analyzerEffect dirname fs' = analyzerEffect dirname fs := by
  have hfiles : filesToInclude.map (fileEffect dirname fs') =
      filesToInclude.map (fileEffect dirname fs) := by
    apply List.map_congr_left
    intro f hf
    apply fileEffect_agree h
    intro hE
    rw [hE] at hf
    revert hf
    decide
  simp only [analyzerEffect, hfiles, guiEffect, aiEffect, h "AI" _ (by decide),
    mainModelEffect_agree h, otherModelEffect_agree h]

/-! ## What the analyzer job queues and prints -/

theorem flatten_map_ite_not {α β : Type} (p : α → Bool) (f : α → β) (xs : List α) :
    (xs.map (fun x => if p x = true then [] else [f x])).flatten =
      (xs.filter (fun x => !p x)).map f := by
  induction xs with
  | nil => rfl
  | cons x xs ih =>
    simp only [List.map_cons, List.flatten_cons, ih, List.filter_cons]
    cases p x <;> simp

theorem path_snoc3 (dirname : Path) (m c : String) :
    dirname ++ ["AI", m, c] = (dirname ++ ["AI", m]) ++ [c] := by simp

theorem find_listed {fs : Node} {p : Path} {es : List (String × Node)} {c : String}
    (hp : fs.find p = some (.dir es)) (hc : c ∈ es.map Prod.fst) :
    (fs.find (p ++ [c])).isSome = true := by
  rw [find_snoc, hp]
  simp only [Option.some_bind, child_dir, List.lookup_isSome_iff]
  obtain ⟨e, he, rfl⟩ := List.mem_map.mp hc
  exact ⟨e, he, by simp⟩

theorem whenFile_of_isSome {n : Option Node} (a b : Effect) (e : Err) (h : n.isSome = true) :
    Effect.whenFile n a b e = if isRegular n = true then a else b := by
  cases n with
  | none => simp at h
  | some m => cases m <;> simp [Effect.whenFile, isRegular]

theorem main_name : "AI/" ++ "main-federated-roberta-model" ++ "/" =
    "AI/main-federated-roberta-model/" := by decide

/-- The files of the loop over `filesToInclude`. -/
theorem files_effect (dirname : Path) (fs : Node) :
    Effect.seq (filesToInclude.map (fileEffect dirname fs)) =
      ⟨(filesToInclude.filter (fun f => (fs.find (dirname ++ [f])).isSome)).map
          (fun f => ⟨basename f, .path (dirname ++ [f])⟩),
        (filesToInclude.filter (fun f => !(fs.find (dirname ++ [f])).isSome)).map
          (fun f => Line.warn ("Warning: File not found: " ++ f)), none⟩ := by
  rw [seq_of_ok]
  · simp only [List.map_map]
    have h1 : (Effect.entries ∘ fileEffect dirname fs) = fun f =>
        if (fs.find (dirname ++ [f])).isSome = true then
          [(⟨basename f, .path (dirname ++ [f])⟩ : Entry)] else [] := by
      funext f
      simp only [Function.comp, fileEffect]
      split <;> simp [Effect.file, Effect.warn]
    have h2 : (Effect.console ∘ fileEffect dirname fs) = fun f =>
        if (fs.find (dirname ++ [f])).isSome = true then []
        else [Line.warn ("Warning: File not found: " ++ f)] := by
      funext f
      simp only [Function.comp, fileEffect]
      split <;> simp [Effect.file, Effect.warn]
    rw [h1, h2, flatten_map_ite, flatten_map_ite_not]
  · intro e he
    obtain ⟨f, _, rfl⟩ := List.mem_map.mp he
    simp only [fileEffect]
    split <;> simp [Effect.file, Effect.warn]

theorem seq_map_ite {α : Type} (xs : List α) (p : α → Bool) (a : α → Entry)
    (c : α → List Line) :
    Effect.seq (xs.map (fun x => if p x = true then (⟨[a x], c x, none⟩ : Effect) else Effect.skip)) =
      ⟨(xs.filter p).map a, ((xs.filter p).map c).flatten, none⟩ := by
  induction xs with
  | nil => simp [Effect.seq, Effect.skip]
  | cons x xs ih =>
    simp only [List.map_cons, Effect.seq, ih, List.filter_cons]
    cases p x <;> simp [Effect.andThen, Effect.skip]

theorem flatten_map_singleton {α β : Type} (f : α → β) (xs : List α) :
    (xs.map (fun x => [f x])).flatten = xs.map f := by
  induction xs with
  | nil => rfl
  | cons x xs ih => simp [ih]

theorem flatten_map_nil {α β : Type} (xs : List α) :
    (xs.map (fun _ => ([] : List β))).flatten = [] := by
  induction xs with
  | nil => rfl
  | cons x xs ih => simp [ih]

/-- The listing loop of the main model directory. -/
theorem main_children (dirname : Path) (fs : Node) (es : List (String × Node))
    (h : fs.find (dirname ++ ["AI", "main-federated-roberta-model"]) = some (.dir es)) :
    Effect.seq ((es.map Prod.fst).map (mainChildEffect dirname fs)) =
      ⟨(regularChildren dirname fs "main-federated-roberta-model").map
          (fun c => ⟨"AI/" ++ "main-federated-roberta-model" ++ "/" ++ c,
            .path (dirname ++ ["AI", "main-federated-roberta-model", c])⟩),
        (regularChildren dirname fs "main-federated-roberta-model").map
          (fun c => Line.log ("Adding model file: " ++ c)), none⟩ := by
  have hF : (es.map Prod.fst).map (mainChildEffect dirname fs) =
      (es.map Prod.fst).map (fun c =>
        if isRegular (fs.find (dirname ++ ["AI", "main-federated-roberta-model", c])) = true then
          (⟨[⟨"AI/" ++ "main-federated-roberta-model" ++ "/" ++ c,
              .path (dirname ++ ["AI", "main-federated-roberta-model", c])⟩],
            [Line.log ("Adding model file: " ++ c)], none⟩ : Effect)
        else Effect.skip) := by
    apply List.map_congr_left
    intro c hc
    have hs := find_listed h hc
    rw [← path_snoc3] at hs
    simp only [mainChildEffect, whenFile_of_isSome _ _ _ hs, main_name]
    split <;> simp [Effect.file, Effect.log, Effect.andThen]
  rw [hF, seq_map_ite, flatten_map_singleton]
  simp only [regularChildren, listing, h]

/-- The listing loop of another model directory. -/
theorem other_children (dirname : Path) (fs : Node) (m : String) (es : List (String × Node))
    (h : fs.find (dirname ++ ["AI", m]) = some (.dir es)) :
    Effect.seq ((es.map Prod.fst).map (otherChildEffect dirname fs m)) =
      ⟨(regularChildren dirname fs m).map
          (fun c => ⟨"AI/" ++ m ++ "/" ++ c, .path (dirname ++ ["AI", m, c])⟩), [], none⟩ := by
  have hF : (es.map Prod.fst).map (otherChildEffect dirname fs m) =
      (es.map Prod.fst).map (fun c =>
        if isRegular (fs.find (dirname ++ ["AI", m, c])) = true then
          (⟨[⟨"AI/" ++ m ++ "/" ++ c, .path (dirname ++ ["AI", m, c])⟩], [], none⟩ : Effect)
        else Effect.skip) := by
    apply List.map_congr_left
    intro c hc
    have hs := find_listed h hc
    rw [← path_snoc3] at hs
    simp only [otherChildEffect, whenFile_of_isSome _ _ _ hs]
    split <;> simp [Effect.file]
  rw [hF, seq_map_ite, flatten_map_nil]
  simp only [regularChildren, listing, h]

theorem listing_of_not_dir {fs : Node} {p : Path} (h : ∀ es, fs.find p ≠ some (.dir es)) :
    listing fs p = [] := by
  unfold listing
  cases hf : fs.find p with
  | none => rfl
  | some n =>
    cases n with
    | dir es => exact absurd hf (h es)
    | file t => rfl
    | special => rfl

theorem regularChildren_of_not_dir (dirname : Path) (fs : Node) (m : String)
    (h : ∀ es, fs.find (dirname ++ ["AI", m]) ≠ some (.dir es)) :
    regularChildren dirname fs m = [] := by
  simp [regularChildren, listing_of_not_dir h]

/-- Lines 60 to 76 in full. -/
theorem mainModelEffect_eq (dirname : Path) (fs : Node) :
    mainModelEffect dirname fs =
      ⟨modelBlock dirname fs "main-federated-roberta-model",
        if (fs.find (dirname ++ ["AI", "main-federated-roberta-model"])).isSome then
          (regularChildren dirname fs "main-federated-roberta-model").map
            (fun c => Line.log ("Adding model file: " ++ c))
        else [Line.warn ("Warning: Model directory not found: " ++
          showPath (dirname ++ ["AI", "main-federated-roberta-model"]))],
        modelErr dirname fs "main-federated-roberta-model"⟩ := by
  unfold mainModelEffect modelBlock modelErr
  cases hf : fs.find (dirname ++ ["AI", "main-federated-roberta-model"]) with
  | none => simp [Effect.warn]
  | some n =>
    cases n with
    | dir es =>
      simp only [Option.isSome_some, if_true, Effect.whenDir, main_children dirname fs es hf]
      simp [Effect.andThen, Effect.marker, main_name]
    | file t =>
      have := regularChildren_of_not_dir dirname fs "main-federated-roberta-model" (by simp [hf])
      simp [Effect.whenDir, Effect.andThen, Effect.marker, Effect.fail, this, main_name]
    | special =>
      have := regularChildren_of_not_dir dirname fs "main-federated-roberta-model" (by simp [hf])
      simp [Effect.whenDir, Effect.andThen, Effect.marker, Effect.fail, this, main_name]

/-- The body of the loop over `otherModelDirs` in full. -/
theorem otherModelEffect_eq (dirname : Path) (fs : Node) (m : String) :
    otherModelEffect dirname fs m =
      ⟨modelBlock dirname fs m,
        if (fs.find (dirname ++ ["AI", m])).isSome then
          [Line.log ("Adding additional model: " ++ m)] else [],
        modelErr dirname fs m⟩ := by
  unfold otherModelEffect modelBlock modelErr
  cases hf : fs.find (dirname ++ ["AI", m]) with
  | none => simp [Effect.skip]
  | some n =>
    cases n with
    | dir es =>
      simp only [Option.isSome_some, if_true, Effect.whenDir, other_children dirname fs m es hf]
      simp [Effect.andThen, Effect.marker, Effect.log]
    | file t =>
      have := regularChildren_of_not_dir dirname fs m (by simp [hf])
      simp [Effect.whenDir, Effect.andThen, Effect.marker, Effect.fail, this, Effect.log]
    | special =>
      have := regularChildren_of_not_dir dirname fs m (by simp [hf])
      simp [Effect.whenDir, Effect.andThen, Effect.marker, Effect.fail, this, Effect.log]

theorem modelErr_of_listable {dirname : Path} {fs : Node}
    (h : modelsListable dirname fs = true) {m : String} (hm : m ∈ allModelDirs) :
    modelErr dirname fs m = none := by
  have := (List.all_eq_true.mp h) m hm
  unfold modelErr
  cases hf : fs.find (dirname ++ ["AI", m]) with
  | none => rfl
  | some n => cases n <;> simp [hf] at this ⊢

theorem others_of_listable {dirname : Path} {fs : Node}
    (h : modelsListable dirname fs = true) :
    Effect.seq (otherModelDirs.map (otherModelEffect dirname fs)) =
      ⟨(otherModelDirs.map (modelBlock dirname fs)).flatten,
        (otherModelDirs.filter (fun m => (fs.find (dirname ++ ["AI", m])).isSome)).map
          (fun m => Line.log ("Adding additional model: " ++ m)), none⟩ := by
  rw [seq_of_ok]
  · simp only [List.map_map]
    have h1 : (Effect.entries ∘ otherModelEffect dirname fs) = modelBlock dirname fs := by
      funext m; simp [otherModelEffect_eq]
    have h2 : (Effect.console ∘ otherModelEffect dirname fs) = fun m =>
        if (fs.find (dirname ++ ["AI", m])).isSome = true then
          [Line.log ("Adding additional model: " ++ m)] else [] := by
      funext m; simp [otherModelEffect_eq]
    rw [h1, h2, flatten_map_ite]
  · intro e he
    obtain ⟨m, hm, rfl⟩ := List.mem_map.mp he
    rw [otherModelEffect_eq]
    exact modelErr_of_listable h (List.mem_cons_of_mem _ hm)

theorem others_sublist (dirname : Path) (fs : Node) :
    (Effect.seq (otherModelDirs.map (otherModelEffect dirname fs))).entries.Sublist
      (otherModelDirs.map (modelBlock dirname fs)).flatten := by
  have := seq_sublist (otherModelDirs.map (otherModelEffect dirname fs))
  have h1 : (Effect.entries ∘ otherModelEffect dirname fs) = modelBlock dirname fs := by
    funext m; simp [otherModelEffect_eq]
  rwa [List.map_map, h1] at this

/-- Whatever happens, what the analyzer job queues is part of what it queues
when no error stops it, in the same order. -/
theorem analyzerEffect_sublist (dirname : Path) (fs : Node) :
    (analyzerEffect dirname fs).entries.Sublist (expectedEntries dirname fs) := by
  unfold analyzerEffect expectedEntries
  rw [files_effect]
  simp only [List.append_assoc]
  refine andThen_sublist (List.Sublist.refl _) (andThen_sublist ?_ (andThen_sublist ?_ ?_))
  · unfold guiEffect
    split <;> simp [Effect.file, Effect.warn]
  · unfold aiEffect
    split
    · have hm : (mainModelEffect dirname fs).entries.Sublist
          (modelBlock dirname fs "main-federated-roberta-model") := by
        rw [mainModelEffect_eq]
      have hk : (Effect.marker "AI/").entries.Sublist [⟨"AI/", .marker⟩] := by
        simp [Effect.marker]
      have := andThen_sublist hk (andThen_sublist hm (others_sublist dirname fs))
      simpa [allModelDirs] using this
    · simp [Effect.warn]
  · simp [inlineEffect, Effect.andThen, Effect.text]

/-- What the analyzer job queues and prints when every model path that exists
is a directory. -/
theorem analyzerEffect_of_listable {dirname : Path} {fs : Node}
    (h : modelsListable dirname fs = true) :
    analyzerEffect dirname fs =
      ⟨expectedEntries dirname fs, expectedConsole dirname fs, none⟩ := by
  have hmain : modelErr dirname fs "main-federated-roberta-model" = none :=
    modelErr_of_listable h (List.mem_cons_self _ _)
  unfold analyzerEffect expectedEntries expectedConsole
  rw [files_effect]
  have hai : aiEffect dirname fs =
      ⟨(if (fs.find (dirname ++ ["AI"])).isSome then
          ⟨"AI/", .marker⟩ :: (allModelDirs.map (modelBlock dirname fs)).flatten
        else []),
       (if (fs.find (dirname ++ ["AI"])).isSome then
          (if (fs.find (dirname ++ ["AI", "main-federated-roberta-model"])).isSome then
            (regularChildren dirname fs "main-federated-roberta-model").map
              (fun c => Line.log ("Adding model file: " ++ c))
           else
            [Line.warn ("Warning: Model directory not found: " ++
              showPath (dirname ++ ["AI", "main-federated-roberta-model"]))])
          ++ (otherModelDirs.filter (fun m => (fs.find (dirname ++ ["AI", m])).isSome)).map
              (fun m => Line.log ("Adding additional model: " ++ m))
        else [Line.warn ("Warning: AI directory not found: " ++ showPath (dirname ++ ["AI"]))]),
       none⟩ := by
    unfold aiEffect
    split
    · rw [mainModelEffect_eq, others_of_listable h, hmain]
      simp [Effect.andThen, Effect.marker, allModelDirs]
    · simp [Effect.warn]
  rw [hai]
  unfold guiEffect
  split <;> simp [Effect.andThen, Effect.file, Effect.warn, inlineEffect, Effect.text]

/-! ## Reading the result of a job -/

/-- The analyzer job in closed form, its body read on the starting filesystem. -/
theorem createLogAnalyzerZip_run (dirname : Path) (s : St) :
    createLogAnalyzerZip dirname s =
      jobResult (outputDirOf dirname) "log_analyzer_tool.zip"
        (fun _ => analyzerEffect dirname s.fs)
        "Log Analyzer Tool zip file created successfully!" s := by
  rw [createLogAnalyzerZip_eq]
  unfold jobResult
  cases h : ensureDir s.fs (outputDirOf dirname) with
  | none => rfl
  | some r =>
    obtain ⟨fs1, calls⟩ := r
    have ha : analyzerEffect dirname
        ((fs1.openWrite (outputDirOf dirname ++ ["log_analyzer_tool.zip"])).getD fs1) =
        analyzerEffect dirname s.fs :=
      analyzerEffect_agree (agree_trans (agree_ensureDir h) (agree_getD_openWrite fs1))
    simp only [ha]

theorem jobResult_of_none {out : Path} {zipName : String} {body : Node → Effect} {done : String}
    {s : St} (h : ensureDir s.fs out = none) :
    jobResult out zipName body done s =
      .throw (.mkdirFailed out) { s with trace := s.trace ++ [.mkdir out] } := by
  simp [jobResult, h]

theorem jobResult_entries {out : Path} {zipName : String} {E : Effect} {done : String}
    {s : St} (h : (ensureDir s.fs out).isSome = true) :
    (jobResult out zipName (fun _ => E) done s).state.entries = E.entries := by
  obtain ⟨⟨fs1, calls⟩, hr⟩ := Option.isSome_iff_exists.mp h
  simp only [jobResult, hr]
  cases he : E.err with
  | some e => simp [Res.state, Res.error?]
  | none =>
    cases ho : (fs1.openWrite (out ++ [zipName])).isSome <;> simp [Res.state, Res.error?]

theorem jobResult_fs {out : Path} {zipName : String} {E : Effect} {done : String}
    {s : St} {fs1 : Node} {calls : List FsCall} (h : ensureDir s.fs out = some (fs1, calls)) :
    (jobResult out zipName (fun _ => E) done s).state.fs =
      (fs1.openWrite (out ++ [zipName])).getD fs1 := by
  simp only [jobResult, h]
  cases he : E.err with
  | some e => simp [Res.state, Res.error?]
  | none =>
    cases ho : (fs1.openWrite (out ++ [zipName])).isSome <;> simp [Res.state, Res.error?]

theorem jobResult_trace {out : Path} {zipName : String} {E : Effect} {done : String}
    {s : St} {fs1 : Node} {calls : List FsCall} (h : ensureDir s.fs out = some (fs1, calls)) :
    (jobResult out zipName (fun _ => E) done s).state.trace =
      s.trace ++ calls ++ [.openWrite (out ++ [zipName])] := by
  simp only [jobResult, h]
  cases he : E.err with
  | some e => simp [Res.state, Res.error?]
  | none =>
    cases ho : (fs1.openWrite (out ++ [zipName])).isSome <;> simp [Res.state, Res.error?]

theorem jobResult_isOk {out : Path} {zipName : String} {E : Effect} {done : String}
    {s : St} {fs1 : Node} {calls : List FsCall} (h : ensureDir s.fs out = some (fs1, calls)) :
    (jobResult out zipName (fun _ => E) done s).isOk =
      ((fs1.openWrite (out ++ [zipName])).isSome && E.err.isNone) := by
  simp only [jobResult, h]
  cases he : E.err with
  | some e => simp [Res.isOk]
  | none =>
    cases ho : (fs1.openWrite (out ++ [zipName])).isSome <;> simp [Res.isOk]

theorem jobResult_console {out : Path} {zipName : String} {E : Effect} {done : String}
    {s : St} {fs1 : Node} {calls : List FsCall} (h : ensureDir s.fs out = some (fs1, calls)) :
    (jobResult out zipName (fun _ => E) done s).state.console =
      s.console ++ E.console ++
        (if ((fs1.openWrite (out ++ [zipName])).isSome && E.err.isNone) = true
          then [Line.log done] else []) := by
  simp only [jobResult, h]
  cases he : E.err with
  | some e => simp [Res.state]
  | none =>
    cases ho : (fs1.openWrite (out ++ [zipName])).isSome <;> simp [Res.state]

/-- The collector job in closed form, as a job with a constant body. -/
theorem createLogCollectorZip_run (dirname : Path) (s : St) :
    createLogCollectorZip dirname s =
      jobResult (outputDirOf dirname) "log_collector_tool.zip"
        (fun _ => Effect.text collectorReadmeContent "README.md")
        "Log Collector Tool zip file created successfully!" s :=
  createLogCollectorZip_eq dirname s

/-- The queue of the analyzer job when the output directory is available and
every model path that exists is a directory. -/
theorem analyzer_entries {dirname : Path} {s : St}
    (hout : outputDirAvailable dirname s.fs = true) (hmod : modelsListable dirname s.fs = true) :
    (createLogAnalyzerZip dirname s).state.entries = expectedEntries dirname s.fs := by
  rw [createLogAnalyzerZip_run, jobResult_entries hout, analyzerEffect_of_listable hmod]

/-- The queue of the analyzer job is always part of the queue of a run that no
error stops, provided the output directory is available. -/
theorem analyzer_entries_sublist {dirname : Path} {s : St}
    (hout : outputDirAvailable dirname s.fs = true) :
    (createLogAnalyzerZip dirname s).state.entries.Sublist (expectedEntries dirname s.fs) := by
  rw [createLogAnalyzerZip_run, jobResult_entries hout]
  exact analyzerEffect_sublist _ _

theorem writable_available {dirname : Path} {zipName : String} {fs : Node}
    (h : outputWritable dirname zipName fs = true) : outputDirAvailable dirname fs = true := by
  unfold outputWritable at h
  unfold outputDirAvailable
  cases hr : ensureDir fs (outputDirOf dirname) with
  | none => simp [hr] at h
  | some r => rfl

/-- The analyzer job completes when the output is writable and every model
path that exists is a directory. -/
theorem analyzer_isOk {dirname : Path} {s : St}
    (hout : outputWritable dirname "log_analyzer_tool.zip" s.fs = true)
    (hmod : modelsListable dirname s.fs = true) :
    (createLogAnalyzerZip dirname s).isOk = true := by
  unfold outputWritable at hout
  cases hr : ensureDir s.fs (outputDirOf dirname) with
  | none => simp [hr] at hout
  | some r =>
    obtain ⟨fs1, calls⟩ := r
    simp only [hr] at hout
    rw [createLogAnalyzerZip_run, jobResult_isOk hr, analyzerEffect_of_listable hmod, hout]
    rfl

/-! ## Names inside the archive -/

theorem startsWith_iff (p s : String) : startsWith p s = true ↔ p.data <+: s.data := by
  unfold startsWith
  exact List.isPrefixOf_iff_prefix

theorem startsWith_append (p c : String) : startsWith p (p ++ c) = true := by
  rw [startsWith_iff, String.data_append]
  exact List.prefix_append _ _

theorem startsWith_self (p : String) : startsWith p p = true := by
  rw [startsWith_iff]

theorem startsWith_trans {p q s : String} (h1 : startsWith p q = true)
    (h2 : startsWith q s = true) : startsWith p s = true := by
  rw [startsWith_iff] at *
  exact h1.trans h2

/-- Two prefixes of one string are comparable. -/
theorem not_startsWith_append {p q : String} (h1 : startsWith p q = false)
    (h2 : startsWith q p = false) (c : String) : startsWith p (q ++ c) = false := by
  cases h : startsWith p (q ++ c) with
  | false => rfl
  | true =>
    exfalso
    rw [startsWith_iff, String.data_append] at h
    rcases List.prefix_or_prefix_of_prefix h (List.prefix_append q.data c.data) with h3 | h3
    · have := (startsWith_iff p q).mpr h3
      simp [h1] at this
    · have := (startsWith_iff q p).mpr h3
      simp [h2] at this

theorem append_left_cancel {a x y : String} (h : a ++ x = a ++ y) : x = y := by
  have := congrArg String.data h
  simp only [String.data_append] at this
  exact String.ext (List.append_cancel_left this)

theorem append_eq_self {a x : String} (h : a ++ x = a) : x = "" := by
  have := congrArg String.data h
  simp only [String.data_append] at this
  have hx : x.data = [] := by
    have h2 : a.data ++ x.data = a.data ++ [] := by simpa using this
    exact List.append_cancel_left h2
  exact String.ext hx

/-- The names of the model directories are pairwise not prefixes of each other
once written as `AI/<name>/`. -/
theorem model_prefix_apart : ∀ m ∈ allModelDirs, ∀ m' ∈ allModelDirs, m ≠ m' →
    startsWith ("AI/" ++ m ++ "/") ("AI/" ++ m' ++ "/") = false := by
  decide!

/-- The names queued outside the model directories. -/
theorem top_names_apart : ∀ m ∈ allModelDirs,
    ∀ n ∈ filesToInclude.map basename ++
      ["log_analyzer_gui.py", "AI/", "README.md", "sample_logs.csv"],
    startsWith ("AI/" ++ m ++ "/") n = false := by
  decide!

theorem top_names_not_ai : ∀ n ∈ filesToInclude.map basename ++
      ["log_analyzer_gui.py", "README.md", "sample_logs.csv"],
    startsWith "AI/" n = false := by
  decide!

theorem top_names_nodup : (filesToInclude.map basename ++
      ["log_analyzer_gui.py", "README.md", "sample_logs.csv"]).Nodup := by
  decide!

theorem allModelDirs_nodup : allModelDirs.Nodup := by
  decide!

theorem block_names_start (dirname : Path) (fs : Node) (m : String) :
    ∀ e ∈ modelBlock dirname fs m, startsWith ("AI/" ++ m ++ "/") e.name = true := by
  intro e he
  unfold modelBlock at he
  split at he
  · rcases List.mem_cons.mp he with rfl | he
    · exact startsWith_self _
    · obtain ⟨c, _, rfl⟩ := List.mem_map.mp he
      exact startsWith_append _ _
  · simp at he

theorem block_filter_self (dirname : Path) (fs : Node) (m : String) :
    (modelBlock dirname fs m).filter (fun e => startsWith ("AI/" ++ m ++ "/") e.name) =
      modelBlock dirname fs m := by
  rw [List.filter_eq_self]
  exact block_names_start dirname fs m

theorem block_names_other (dirname : Path) (fs : Node) {m m' : String}
    (hm : m ∈ allModelDirs) (hm' : m' ∈ allModelDirs) (hne : m ≠ m') :
    ∀ e ∈ modelBlock dirname fs m', startsWith ("AI/" ++ m ++ "/") e.name = false := by
  intro e he
  have h1 := model_prefix_apart m hm m' hm' hne
  have h2 := model_prefix_apart m' hm' m hm (Ne.symm hne)
  unfold modelBlock at he
  split at he
  · rcases List.mem_cons.mp he with rfl | he
    · exact h1
    · obtain ⟨c, _, rfl⟩ := List.mem_map.mp he
      exact not_startsWith_append h1 h2 c
  · simp at he

theorem block_filter_other (dirname : Path) (fs : Node) {m m' : String}
    (hm : m ∈ allModelDirs) (hm' : m' ∈ allModelDirs) (hne : m ≠ m') :
    (modelBlock dirname fs m').filter (fun e => startsWith ("AI/" ++ m ++ "/") e.name) = [] := by
  rw [List.filter_eq_nil_iff]
  intro e he
  simp [block_names_other dirname fs hm hm' hne e he]

theorem flatten_map_single {α β : Type} [DecidableEq α] (f : α → List β) (m : α) :
    ∀ (xs : List α), xs.Nodup → m ∈ xs → (∀ x ∈ xs, x ≠ m → f x = []) →
      (xs.map f).flatten = f m := by
  intro xs
  induction xs with
  | nil => intro _ hm; simp at hm
  | cons x xs ih =>
    intro hnd hm hf
    have hx : x ∉ xs := (List.nodup_cons.mp hnd).1
    have hnd' : xs.Nodup := (List.nodup_cons.mp hnd).2
    simp only [List.map_cons, List.flatten_cons]
    by_cases hxm : x = m
    · subst hxm
      have : (xs.map f).flatten = [] := by
        rw [List.flatten_eq_nil_iff]
        intro l hl
        obtain ⟨y, hy, rfl⟩ := List.mem_map.mp hl
        exact hf y (List.mem_cons_of_mem _ hy) (fun h => hx (h ▸ hy))
      rw [this, List.append_nil]
    · have hm' : m ∈ xs := by
        rcases List.mem_cons.mp hm with h | h
        · exact absurd h.symm hxm
        · exact h
      rw [hf x (List.mem_cons_self _ _) hxm, List.nil_append]
      exact ih hnd' hm' (fun y hy => hf y (List.mem_cons_of_mem _ hy))

theorem find_model_of_no_ai {dirname : Path} {fs : Node}
    (h : (fs.find (dirname ++ ["AI"])).isSome = false) (m : String) :
    fs.find (dirname ++ ["AI", m]) = none := by
  rw [find_two]
  cases hf : fs.find (dirname ++ ["AI"]) with
  | none => rfl
  | some n => simp [hf] at h

/-- The entries of a complete run whose name starts with `AI/<m>/` are those
of the model directory `m`. -/
theorem expected_filter (dirname : Path) (fs : Node) {m : String} (hm : m ∈ allModelDirs) :
    (expectedEntries dirname fs).filter (fun e => startsWith ("AI/" ++ m ++ "/") e.name) =
      modelBlock dirname fs m := by
  have htop := top_names_apart m hm
  have hfiles : ((filesToInclude.filter (fun f => (fs.find (dirname ++ [f])).isSome)).map
      (fun f => (⟨basename f, .path (dirname ++ [f])⟩ : Entry))).filter
        (fun e => startsWith ("AI/" ++ m ++ "/") e.name) = [] := by
    rw [List.filter_eq_nil_iff]
    intro e he
    obtain ⟨f, hf, rfl⟩ := List.mem_map.mp he
    have hf' := (List.mem_filter.mp hf).1
    have := htop (basename f) (List.mem_append_left _ (List.mem_map_of_mem _ hf'))
    simp [this]
  have hblocks : ((allModelDirs.map (modelBlock dirname fs)).flatten).filter
      (fun e => startsWith ("AI/" ++ m ++ "/") e.name) = modelBlock dirname fs m := by
    rw [List.filter_flatten, List.map_map]
    have := flatten_map_single
      (List.filter (fun e => startsWith ("AI/" ++ m ++ "/") e.name) ∘ modelBlock dirname fs) m
      allModelDirs allModelDirs_nodup hm
      (fun x hx hne => by
        simpa using block_filter_other dirname fs hm hx (Ne.symm hne))
    rw [this]
    exact block_filter_self dirname fs m
  have hgui := htop "log_analyzer_gui.py" (by simp)
  have hai := htop "AI/" (by simp)
  have hreadme := htop "README.md" (by simp)
  have hcsv := htop "sample_logs.csv" (by simp)
  unfold expectedEntries
  simp only [List.filter_append, hfiles, List.nil_append]
  have h2 : (if (fs.find (dirname ++ ["AI", "log_analyzer_gui.py"])).isSome = true then
      [(⟨"log_analyzer_gui.py", .path (dirname ++ ["AI", "log_analyzer_gui.py"])⟩ : Entry)]
      else []).filter (fun e => startsWith ("AI/" ++ m ++ "/") e.name) = [] := by
    split <;> simp [hgui]
  have h3 : ([⟨"README.md", .text analyzerReadmeContent⟩,
      ⟨"sample_logs.csv", .text sampleCsvContent⟩] : List Entry).filter
        (fun e => startsWith ("AI/" ++ m ++ "/") e.name) = [] := by
    simp [hreadme, hcsv]
  rw [h2, h3, List.nil_append, List.append_nil]
  by_cases hex : (fs.find (dirname ++ ["AI"])).isSome = true
  · simp only [hex, if_true, List.filter_cons, hai, Bool.false_eq_true, if_false, hblocks]
  · have hno : (fs.find (dirname ++ ["AI"])).isSome = false := by simpa using hex
    simp only [hno, Bool.false_eq_true, if_false, List.filter_nil]
    simp [modelBlock, find_model_of_no_ai hno m]

/-- The names of the entries of one model directory. -/
theorem block_names_nodup (dirname : Path) (fs : Node) (m : String)
    (hnd : (listing fs (dirname ++ ["AI", m])).Nodup)
    (hne : "" ∉ listing fs (dirname ++ ["AI", m])) :
    ((modelBlock dirname fs m).map Entry.name).Nodup := by
  unfold modelBlock
  split
  · simp only [List.map_cons, List.map_map]
    rw [List.nodup_cons]
    constructor
    · intro hmem
      obtain ⟨c, hc, hcc⟩ := List.mem_map.mp hmem
      have : c = "" := append_eq_self hcc
      subst this
      exact hne (List.mem_filter.mp hc).1
    · have hr : (regularChildren dirname fs m).Nodup := List.Nodup.filter _ hnd
      refine List.Nodup.map_on ?_ hr
      intro x _ y _ hxy
      exact append_left_cancel hxy
  · simp

theorem blocks_names_nodup (dirname : Path) (fs : Node)
    (hnd : ∀ m ∈ allModelDirs, (listing fs (dirname ++ ["AI", m])).Nodup)
    (hne : ∀ m ∈ allModelDirs, "" ∉ listing fs (dirname ++ ["AI", m])) :
    ((allModelDirs.map (fun m => (modelBlock dirname fs m).map Entry.name)).flatten).Nodup := by
  rw [List.nodup_flatten]
  constructor
  · intro l hl
    obtain ⟨m, hm, rfl⟩ := List.mem_map.mp hl
    exact block_names_nodup dirname fs m (hnd m hm) (hne m hm)
  · rw [List.pairwise_map]
    refine List.Pairwise.imp_of_mem ?_ allModelDirs_nodup
    intro m m' hm hm' hmm n h1 h2
    obtain ⟨e1, he1, rfl⟩ := List.mem_map.mp h1
    obtain ⟨e2, he2, he12⟩ := List.mem_map.mp h2
    have t := block_names_start dirname fs m e1 he1
    have f := block_names_other dirname fs hm hm' hmm e2 he2
    rw [he12] at f
    simp [t] at f

theorem blocks_names_start_ai (dirname : Path) (fs : Node) :
    ∀ n ∈ (allModelDirs.map (fun m => (modelBlock dirname fs m).map Entry.name)).flatten,
      startsWith "AI/" n = true ∧ n ≠ "AI/" := by
  intro n hn
  obtain ⟨l, hl, hnl⟩ := List.mem_flatten.mp hn
  obtain ⟨m, hm, rfl⟩ := List.mem_map.mp hl
  obtain ⟨e, he, rfl⟩ := List.mem_map.mp hnl
  have h1 := block_names_start dirname fs m e he
  constructor
  · have h0 : startsWith "AI/" ("AI/" ++ m ++ "/") = true := by
      have := startsWith_append "AI/" (m ++ "/")
      rwa [← String.append_assoc] at this
    exact startsWith_trans h0 h1
  · intro heq
    have := top_names_apart m hm "AI/" (by simp)
    rw [heq] at h1
    simp [h1] at this

/-- The names a complete run queues are pairwise distinct when no model
directory lists a name twice and no listed name is empty. -/
theorem expected_names_nodup (dirname : Path) (fs : Node)
    (hnd : ∀ m ∈ allModelDirs, (listing fs (dirname ++ ["AI", m])).Nodup)
    (hne : ∀ m ∈ allModelDirs, "" ∉ listing fs (dirname ++ ["AI", m])) :
    ((expectedEntries dirname fs).map Entry.name).Nodup := by
  have hblocks := blocks_names_nodup dirname fs hnd hne
  have hstart := blocks_names_start_ai dirname fs
  -- the names outside the `AI/` tree
  have htop : ∀ (F G : List String), F.Sublist (filesToInclude.map basename) →
      G.Sublist ["log_analyzer_gui.py"] →
      (F ++ G ++ ["README.md", "sample_logs.csv"]).Sublist
        (filesToInclude.map basename ++ ["log_analyzer_gui.py", "README.md", "sample_logs.csv"]) := by
    intro F G hF hG
    have := (hF.append hG).append (List.Sublist.refl ["README.md", "sample_logs.csv"])
    simpa using this
  let F := (filesToInclude.filter (fun f => (fs.find (dirname ++ [f])).isSome)).map basename
  let G : List String := if (fs.find (dirname ++ ["AI", "log_analyzer_gui.py"])).isSome then
    ["log_analyzer_gui.py"] else []
  let A : List String := if (fs.find (dirname ++ ["AI"])).isSome then
    "AI/" :: (allModelDirs.map (fun m => (modelBlock dirname fs m).map Entry.name)).flatten else []
  have hnames : (expectedEntries dirname fs).map Entry.name =
      F ++ G ++ A ++ ["README.md", "sample_logs.csv"] := by
    simp only [expectedEntries, List.map_append, List.map_map, F, G, A]
    congr 1
    congr 1
    · congr 1
      split <;> rfl
    · split
      · simp only [List.map_cons, List.map_flatten, List.map_map]
        rfl
      · rfl
  have hF : F.Sublist (filesToInclude.map basename) :=
    (List.filter_sublist _).map basename
  have hG : G.Sublist ["log_analyzer_gui.py"] := by
    simp only [G]
    split
    · exact List.Sublist.refl _
    · exact List.nil_sublist _
  have hTop := htop F G hF hG
  have hTopNodup : (F ++ G ++ ["README.md", "sample_logs.csv"]).Nodup :=
    List.Nodup.sublist hTop top_names_nodup
  have hA : A.Nodup := by
    simp only [A]
    split
    · rw [List.nodup_cons]
      exact ⟨fun h => (hstart _ h).2 rfl, hblocks⟩
    · exact List.nodup_nil
  have hAstart : ∀ n ∈ A, startsWith "AI/" n = true := by
    intro n hn
    simp only [A] at hn
    split at hn
    · rcases List.mem_cons.mp hn with rfl | h
      · exact startsWith_self _
      · exact (hstart n h).1
    · simp at hn
  have hperm : (F ++ G ++ A ++ ["README.md", "sample_logs.csv"]).Perm
      ((F ++ G ++ ["README.md", "sample_logs.csv"]) ++ A) := by
    rw [List.append_assoc (F ++ G) A, List.append_assoc (F ++ G)]
    exact List.Perm.append_left _ List.perm_append_comm
  rw [hnames, hperm.nodup_iff, List.nodup_append]
  refine ⟨hTopNodup, hA, ?_⟩
  intro n h1 h2
  have := top_names_not_ai n (hTop.subset h1)
  simp [hAstart n h2] at this

/-! ## The individual files and the warnings -/

theorem basename_of_mem : ∀ f ∈ filesToInclude, basename f = f := by
  decide!

theorem gui_not_file : "log_analyzer_gui.py" ∉ filesToInclude := by
  decide!

theorem gui_label_not_file : "AI/log_analyzer_gui.py" ∉ filesToInclude := by
  decide!

/-- The names a complete run queues, in four parts: the files, the GUI file,
the `AI/` tree, the inline entries. -/
theorem expected_names (dirname : Path) (fs : Node) :
    (expectedEntries dirname fs).map Entry.name =
      (filesToInclude.filter (fun f => (fs.find (dirname ++ [f])).isSome)).map basename ++
        (if (fs.find (dirname ++ ["AI", "log_analyzer_gui.py"])).isSome then
          ["log_analyzer_gui.py"] else []) ++
        (if (fs.find (dirname ++ ["AI"])).isSome then
          "AI/" :: (allModelDirs.map (fun m => (modelBlock dirname fs m).map Entry.name)).flatten
          else []) ++
        ["README.md", "sample_logs.csv"] := by
  simp only [expectedEntries, List.map_append, List.map_map]
  congr 1
  congr 1
  · congr 1
    split <;> rfl
  · split
    · simp only [List.map_cons, List.map_flatten, List.map_map]
      rfl
    · rfl

theorem not_mem_ai_tree (dirname : Path) (fs : Node) {n : String}
    (h : startsWith "AI/" n = false) :
    n ∉ (if (fs.find (dirname ++ ["AI"])).isSome then
      "AI/" :: (allModelDirs.map (fun m => (modelBlock dirname fs m).map Entry.name)).flatten
      else []) := by
  intro hn
  split at hn
  · rcases List.mem_cons.mp hn with rfl | hn
    · simp [startsWith_self] at h
    · simp [(blocks_names_start_ai dirname fs n hn).1] at h
  · simp at hn

/-- A file of `filesToInclude` has an entry under its base name exactly when
its path exists. -/
theorem file_name_mem (dirname : Path) (fs : Node) {f : String} (hf : f ∈ filesToInclude) :
    basename f ∈ (expectedEntries dirname fs).map Entry.name ↔
      (fs.find (dirname ++ [f])).isSome = true := by
  have hb := basename_of_mem f hf
  have htopmem : basename f ∈ filesToInclude.map basename ++
      ["log_analyzer_gui.py", "README.md", "sample_logs.csv"] :=
    List.mem_append_left _ (List.mem_map_of_mem _ hf)
  have hai := not_mem_ai_tree dirname fs (top_names_not_ai _ htopmem)
  have hg : f ≠ "log_analyzer_gui.py" := fun h => gui_not_file (h ▸ hf)
  have hr : f ≠ "README.md" := by
    intro h; rw [h] at hf; revert hf; decide!
  have hc : f ≠ "sample_logs.csv" := by
    intro h; rw [h] at hf; revert hf; decide!
  rw [hb] at hai ⊢
  rw [expected_names]
  simp only [List.mem_append, List.mem_map, List.mem_filter, hai, or_false]
  constructor
  · rintro (((⟨f', ⟨hf', hex⟩, hbf⟩) | h) | h)
    · rw [basename_of_mem f' hf'] at hbf
      rw [← hbf]; exact hex
    · split at h <;> simp [hg] at h
    · simp [hr, hc] at h
  · intro hex
    exact Or.inl (Or.inl ⟨f, ⟨hf, hex⟩, hb⟩)

/-- The GUI file has an entry under its base name exactly when its path exists. -/
theorem gui_name_mem (dirname : Path) (fs : Node) :
    "log_analyzer_gui.py" ∈ (expectedEntries dirname fs).map Entry.name ↔
      (fs.find (dirname ++ ["AI", "log_analyzer_gui.py"])).isSome = true := by
  have hai := not_mem_ai_tree dirname fs
    (top_names_not_ai "log_analyzer_gui.py" (by simp))
  rw [expected_names]
  simp only [List.mem_append, List.mem_map, List.mem_filter, hai, or_false]
  constructor
  · rintro (((⟨f', ⟨hf', _⟩, hbf⟩) | h) | h)
    · rw [basename_of_mem f' hf'] at hbf
      exact absurd (hbf ▸ hf') gui_not_file
    · split at h
      · assumption
      · simp at h
    · simp at h
  · intro hex
    exact Or.inl (Or.inr (by simp [hex]))

theorem source_name_mem (dirname : Path) (fs : Node) :
    ∀ src ∈ individualSources,
      (basename src.2 ∈ (expectedEntries dirname fs).map Entry.name ↔
        (fs.find (dirname ++ src.1)).isSome = true) := by
  intro src hsrc
  rcases List.mem_append.mp hsrc with h | h
  · obtain ⟨f, hf, rfl⟩ := List.mem_map.mp h
    exact file_name_mem dirname fs hf
  · simp only [List.mem_singleton] at h
    subst h
    have : basename "AI/log_analyzer_gui.py" = "log_analyzer_gui.py" := by decide!
    simp only [this]
    exact gui_name_mem dirname fs

/-! ## Warnings -/

theorem warnings_append (a b : List Line) : warnings (a ++ b) = warnings a ++ warnings b := by
  simp [warnings, List.filterMap_append]

theorem warnings_map_warn {α : Type} (g : α → String) (xs : List α) :
    warnings (xs.map (fun x => Line.warn (g x))) = xs.map g := by
  induction xs with
  | nil => rfl
  | cons x xs ih =>
    simp only [warnings] at ih
    simp [warnings, Line.warning?, ih]

theorem warnings_map_log {α : Type} (g : α → String) (xs : List α) :
    warnings (xs.map (fun x => Line.log (g x))) = [] := by
  induction xs with
  | nil => rfl
  | cons x xs ih =>
    simp only [warnings] at ih
    simp [warnings, Line.warning?, ih]

/-- The warnings of a complete run. -/
theorem expected_warnings (dirname : Path) (fs : Node) :
    warnings (expectedConsole dirname fs) =
      (filesToInclude.filter (fun f => !(fs.find (dirname ++ [f])).isSome)).map
          (fun f => "Warning: File not found: " ++ f)
        ++ (if (fs.find (dirname ++ ["AI", "log_analyzer_gui.py"])).isSome then []
            else ["Warning: File not found: AI/log_analyzer_gui.py"])
        ++ (if (fs.find (dirname ++ ["AI"])).isSome then
              (if (fs.find (dirname ++ ["AI", "main-federated-roberta-model"])).isSome then []
               else ["Warning: Model directory not found: " ++
                  showPath (dirname ++ ["AI", "main-federated-roberta-model"])])
            else ["Warning: AI directory not found: " ++ showPath (dirname ++ ["AI"])]) := by
  unfold expectedConsole
  rw [warnings_append, warnings_append, warnings_map_warn]
  congr 1
  · congr 1
    split <;> simp [warnings, Line.warning?]
  · split
    · rw [warnings_append, warnings_map_log, List.append_nil]
      split
      · exact warnings_map_log _ _
      · simp [warnings, Line.warning?]
    · simp [warnings, Line.warning?]

/-- Two texts that differ at one position stay different whatever is appended. -/
theorem append_ne_of_char {a b : String} (i : Nat) {c d : Char}
    (ha : a.data[i]? = some c) (hb : b.data[i]? = some d) (hcd : c ≠ d) (x y : String) :
    a ++ x ≠ b ++ y := by
  intro h
  have h2 := congrArg (fun s => s.data[i]?) h
  simp only [String.data_append] at h2
  have hia : i < a.data.length := by
    rcases Nat.lt_or_ge i a.data.length with h | h
    · exact h
    · rw [List.getElem?_eq_none h] at ha; simp at ha
  have hib : i < b.data.length := by
    rcases Nat.lt_or_ge i b.data.length with h | h
    · exact h
    · rw [List.getElem?_eq_none h] at hb; simp at hb
  rw [List.getElem?_append_left hia, List.getElem?_append_left hib, ha, hb] at h2
  exact hcd (Option.some.inj h2)

theorem gui_warning_text :
    "Warning: File not found: AI/log_analyzer_gui.py" =
      "Warning: File not found: " ++ "AI/log_analyzer_gui.py" := by
  decide!

theorem file_warning_ne_model (x y : String) :
    "Warning: File not found: " ++ x ≠ "Warning: Model directory not found: " ++ y :=
  append_ne_of_char 9 (c := 'F') (d := 'M') (by decide!) (by decide!) (by decide) x y

theorem file_warning_ne_ai (x y : String) :
    "Warning: File not found: " ++ x ≠ "Warning: AI directory not found: " ++ y :=
  append_ne_of_char 9 (c := 'F') (d := 'A') (by decide!) (by decide!) (by decide) x y

/-- An individual source file gets its warning exactly when its path is absent. -/
theorem source_warning_mem (dirname : Path) (fs : Node) :
    ∀ src ∈ individualSources,
      (("Warning: File not found: " ++ src.2) ∈ warnings (expectedConsole dirname fs) ↔
        (fs.find (dirname ++ src.1)).isSome = false) := by
  intro src hsrc
  rw [expected_warnings]
  have hdir : ("Warning: File not found: " ++ src.2) ∉
      (if (fs.find (dirname ++ ["AI"])).isSome then
        (if (fs.find (dirname ++ ["AI", "main-federated-roberta-model"])).isSome then []
         else ["Warning: Model directory not found: " ++
            showPath (dirname ++ ["AI", "main-federated-roberta-model"])])
      else ["Warning: AI directory not found: " ++ showPath (dirname ++ ["AI"])]) := by
    intro h
    split at h
    · split at h
      · simp at h
      · exact file_warning_ne_model _ _ (List.mem_singleton.mp h)
    · exact file_warning_ne_ai _ _ (List.mem_singleton.mp h)
  simp only [List.mem_append, hdir, or_false, List.mem_map, List.mem_filter]
  rcases List.mem_append.mp hsrc with h | h
  · obtain ⟨f, hf, rfl⟩ := List.mem_map.mp h
    simp only []
    constructor
    · rintro (⟨f', ⟨_, hab⟩, heq⟩ | h)
      · have := append_left_cancel heq
        subst this
        simpa using hab
      · split at h
        · simp at h
        · rw [gui_warning_text] at h
          have := append_left_cancel (List.mem_singleton.mp h)
          exact absurd (this ▸ hf) gui_label_not_file
    · intro hab
      exact Or.inl ⟨f, ⟨hf, by simp [hab]⟩, rfl⟩
  · simp only [List.mem_singleton] at h
    subst h
    simp only []
    constructor
    · rintro (⟨f', ⟨hf', _⟩, heq⟩ | h)
      · have := append_left_cancel heq
        exact absurd (this ▸ hf') gui_label_not_file
      · split at h
        · simp at h
        · rename_i hne
          simpa using hne
    · intro hab
      refine Or.inr ?_
      simp [hab, gui_warning_text]

/-! ## The output directory -/

theorem find_prefix_dir {n : Node} {p q : Path} {es : List (String × Node)}
    (h : n.find (p ++ q) = some (.dir es)) : isDirectory (n.find p) = true := by
  rw [find_append] at h
  cases hp : n.find p with
  | none => simp [hp] at h
  | some m =>
    simp only [hp, Option.some_bind] at h
    cases q with
    | nil => simp at h; subst h; rfl
    | cons c r =>
      cases m with
      | dir es' => rfl
      | file t => simp [find_cons] at h
      | special => simp [find_cons] at h

theorem isDirectory_iff {x : Option Node} :
    isDirectory x = true ↔ ∃ es, x = some (.dir es) := by
  cases x with
  | none => simp [isDirectory]
  | some n => cases n <;> simp [isDirectory]

/-- Opening `p ++ [c]` for writing where `c` is absent or a regular file
leaves an empty regular file there. -/
theorem openWrite_snoc_file : ∀ (p : Path) (c : String) (n n' : Node),
    isDirectory (n.find (p ++ [c])) = false → n.find (p ++ [c]) ≠ some .special →
    n.openWrite (p ++ [c]) = some n' → n'.find (p ++ [c]) = some (.file "") := by
  intro p
  induction p with
  | nil =>
    intro c n n' hd hs h
    obtain ⟨es, rfl, h2 | h2⟩ := openWrite_single_some h
    · exfalso; apply hs; simp [find_cons, h2.1]
    · rw [h2.2]; simp [find_cons, lookup_setEntry_self]
  | cons x p ih =>
    intro c n n' hd hs h
    obtain ⟨es, ch, ch', rfl, h2, h3, rfl⟩ := openWrite_cons_some (by simp) h
    have hd' : isDirectory (ch.find (p ++ [c])) = false := by
      simpa [find_cons, h2] using hd
    have hs' : ch.find (p ++ [c]) ≠ some .special := by
      simpa [find_cons, h2] using hs
    simpa [find_cons, lookup_setEntry_self] using ih c ch ch' hd' hs' h3

theorem ensureDir_find {fs fs1 : Node} {out : Path} {calls : List FsCall}
    (h : ensureDir fs out = some (fs1, calls)) : isDirectory (fs1.find out) = true ∨
      (fs1 = fs ∧ (fs.find out).isSome = true) := by
  unfold ensureDir at h
  split at h
  · rename_i hex
    simp at h
    exact Or.inr ⟨h.1.symm, hex⟩
  · obtain ⟨w, hw, h2⟩ := Option.map_eq_some'.mp h
    simp at h2
    obtain ⟨es, hes⟩ := mkdirp_find_self _ _ _ hw
    rw [← h2.1]
    exact Or.inl (isDirectory_iff.mpr ⟨es, hes⟩)

theorem isSome_of_isDirectory {x : Option Node} (h : isDirectory x = true) : x.isSome = true := by
  obtain ⟨es, rfl⟩ := isDirectory_iff.mp h
  rfl

/-- After the output phase the output directory path exists. -/
theorem output_exists_after {fs fs1 : Node} {out : Path} {zipName : String}
    {calls : List FsCall} (h : ensureDir fs out = some (fs1, calls)) :
    (((fs1.openWrite (out ++ [zipName])).getD fs1).find out).isSome = true := by
  have h1 : (fs1.find out).isSome = true := by
    rcases ensureDir_find h with h | ⟨rfl, h⟩
    · exact isSome_of_isDirectory h
    · exact h
  cases ho : fs1.openWrite (out ++ [zipName]) with
  | none => simpa using h1
  | some fs2 =>
    obtain ⟨_, ⟨es, hes⟩, _⟩ := openWrite_snoc_some out zipName fs1 fs2 ho
    simp [hes]

/-- What a job does about its output directory. -/
theorem jobResult_prepares (dirname : Path) (zipName : String) (E : Effect) (done : String)
    (s : St) :
    PreparesOutput dirname zipName s
      (jobResult (outputDirOf dirname) zipName (fun _ => E) done s) := by
  constructor
  · intro hno hmk
    obtain ⟨fs1, hfs1⟩ := Option.isSome_iff_exists.mp hmk
    have hnone : s.fs.find (outputDirOf dirname) = none := by
      cases hf : s.fs.find (outputDirOf dirname) with
      | none => rfl
      | some n => simp [hf] at hno
    have hens : ensureDir s.fs (outputDirOf dirname) =
        some (fs1, [FsCall.mkdir (outputDirOf dirname)]) := by
      simp [ensureDir, hno, hfs1]
    have hfresh := mkdirp_fresh _ _ _ hnone hfs1
    have hopen := openWrite_snoc_isSome (outputDirOf dirname) zipName fs1 [] hfresh (by simp)
    obtain ⟨fs2, hfs2⟩ := Option.isSome_iff_exists.mp hopen
    obtain ⟨_, ⟨es2, hes2⟩, _⟩ := openWrite_snoc_some _ _ _ _ hfs2
    have hzip1 : fs1.find (outputDirOf dirname ++ [zipName]) = none := by
      rw [find_snoc, hfresh]; rfl
    have hfile := openWrite_snoc_file (outputDirOf dirname) zipName fs1 fs2
      (by simp [hzip1, isDirectory]) (by simp [hzip1]) hfs2
    rw [jobResult_trace hens, jobResult_fs hens, hfs2]
    refine ⟨by simp, ?_, by simp [hfile, isRegular]⟩
    intro p hp
    obtain ⟨q, hq⟩ := hp
    simp only [Option.getD_some]
    rw [← hq] at hes2
    exact find_prefix_dir hes2
  · intro hex
    have hens : ensureDir s.fs (outputDirOf dirname) = some (s.fs, []) := by
      simp [ensureDir, hex]
    rw [jobResult_trace hens, jobResult_fs hens]
    refine ⟨by simp, ?_, ?_⟩
    · intro c q hc
      cases ho : s.fs.openWrite (outputDirOf dirname ++ [zipName]) with
      | none => rfl
      | some fs2 =>
        simp only [Option.getD_some]
        exact openWrite_find_other hc (outputDirOf dirname) [] q s.fs fs2 ho
    · intro hd hz
      obtain ⟨es, hes⟩ := isDirectory_iff.mp hd
      have hlook : ∀ es2, es.lookup zipName ≠ some (.dir es2) := by
        intro es2 hl
        rw [find_snoc, hes] at hz
        simp [hl, isDirectory] at hz
      have hopen := openWrite_snoc_isSome (outputDirOf dirname) zipName s.fs es hes hlook
      obtain ⟨fs2, hfs2⟩ := Option.isSome_iff_exists.mp hopen
      obtain ⟨_, ⟨es2, hes2⟩, hz2⟩ := openWrite_snoc_some _ _ _ _ hfs2
      rw [hfs2]
      simp only [Option.getD_some]
      refine ⟨isDirectory_iff.mpr ⟨es2, hes2⟩, ?_⟩
      rcases hz2 with h | h <;> simp [h]

/-! ## Running the analyzer job again -/

theorem files_not_front_end : ∀ f ∈ filesToInclude, f ≠ "Front-End" := by
  decide!

/-- Every path a complete run reads an entry from lies apart from the output
directory. -/
theorem expected_sources_apart (dirname : Path) (fs : Node) :
    ∀ e ∈ expectedEntries dirname fs, ∀ p, e.source = .path p →
      ∃ b q, b ≠ "Front-End" ∧ p = dirname ++ b :: q := by
  intro e he p hp
  unfold expectedEntries at he
  simp only [List.mem_append] at he
  rcases he with ((he | he) | he) | he
  · obtain ⟨f, hf, rfl⟩ := List.mem_map.mp he
    simp only [Source.path.injEq] at hp
    exact ⟨f, [], files_not_front_end f (List.mem_filter.mp hf).1, hp.symm⟩
  · split at he
    · rw [List.mem_singleton] at he
      subst he
      simp only [Source.path.injEq] at hp
      exact ⟨"AI", ["log_analyzer_gui.py"], by decide, hp.symm⟩
    · simp at he
  · split at he
    · rcases List.mem_cons.mp he with rfl | he
      · simp at hp
      · obtain ⟨l, hl, hel⟩ := List.mem_flatten.mp he
        obtain ⟨m, _, rfl⟩ := List.mem_map.mp hl
        unfold modelBlock at hel
        split at hel
        · rcases List.mem_cons.mp hel with rfl | hel
          · simp at hp
          · obtain ⟨c, _, rfl⟩ := List.mem_map.mp hel
            simp only [Source.path.injEq] at hp
            exact ⟨"AI", [m, c], by decide, hp.symm⟩
        · simp at hel
    · simp at he
  · simp only [List.mem_cons, List.mem_singleton, List.not_mem_nil, or_false] at he
    rcases he with rfl | rfl <;> simp at hp

/-- The filesystem a run of the analyzer job leaves resolves every path apart
from the output directory as before. -/
theorem analyzer_fs_agree (dirname : Path) (s : St) :
    Agree dirname s.fs (createLogAnalyzerZip dirname s).state.fs := by
  rw [createLogAnalyzerZip_run]
  cases h : ensureDir s.fs (outputDirOf dirname) with
  | none =>
    rw [jobResult_of_none h]
    exact agree_refl _ _
  | some r =>
    obtain ⟨fs1, calls⟩ := r
    rw [jobResult_fs h]
    exact agree_trans (agree_ensureDir h) (agree_getD_openWrite fs1)

/-- A run started on the filesystem an earlier run left, with the queue that
run started with, queues what the earlier run queued. -/
theorem analyzer_rerun_entries (dirname : Path) (s s' : St)
    (hfs : s'.fs = (createLogAnalyzerZip dirname s).state.fs) (hent : s'.entries = s.entries) :
    (createLogAnalyzerZip dirname s').state.entries =
      (createLogAnalyzerZip dirname s).state.entries := by
  cases h : ensureDir s.fs (outputDirOf dirname) with
  | none =>
    have h1 : createLogAnalyzerZip dirname s =
        .throw (.mkdirFailed (outputDirOf dirname))
          { s with trace := s.trace ++ [.mkdir (outputDirOf dirname)] } := by
      rw [createLogAnalyzerZip_run, jobResult_of_none h]
    rw [h1] at hfs ⊢
    simp only [Res.state] at hfs ⊢
    have h' : ensureDir s'.fs (outputDirOf dirname) = none := by rw [hfs]; exact h
    rw [createLogAnalyzerZip_run, jobResult_of_none h']
    exact hent
  | some r =>
    obtain ⟨fs1, calls⟩ := r
    have hsome : (ensureDir s.fs (outputDirOf dirname)).isSome = true := by simp [h]
    have hfs1 : (createLogAnalyzerZip dirname s).state.fs =
        (fs1.openWrite (outputDirOf dirname ++ ["log_analyzer_tool.zip"])).getD fs1 := by
      rw [createLogAnalyzerZip_run, jobResult_fs h]
    have hex : (s'.fs.find (outputDirOf dirname)).isSome = true := by
      rw [hfs, hfs1]; exact output_exists_after h
    have hsome2 : (ensureDir s'.fs (outputDirOf dirname)).isSome = true := by
      simp [ensureDir, hex]
    have e1 : (createLogAnalyzerZip dirname s).state.entries =
        (analyzerEffect dirname s.fs).entries := by
      rw [createLogAnalyzerZip_run, jobResult_entries hsome]
    have e2 : (createLogAnalyzerZip dirname s').state.entries =
        (analyzerEffect dirname s'.fs).entries := by
      rw [createLogAnalyzerZip_run, jobResult_entries hsome2]
    rw [e1, e2, hfs, analyzerEffect_agree (analyzer_fs_agree dirname s)]

/-! ## Runs that an error stops -/

theorem andThen_console (a b : Effect) :
    (a.andThen b).console = a.console ++ (if a.err.isNone = true then b.console else []) := by
  cases h : a.err with
  | none => simp [andThen_of_ok b h]
  | some e => simp [andThen_of_err b h]

theorem seq_console_sublist (l : List Effect) :
    (Effect.seq l).console.Sublist (l.map Effect.console).flatten := by
  induction l with
  | nil => simp [Effect.seq, Effect.skip]
  | cons e l ih =>
    simp only [Effect.seq, List.map_cons, List.flatten_cons, andThen_console]
    split
    · exact (List.Sublist.refl _).append ih
    · simp

theorem warnings_of_no_warn (l : List Line) (h : ∀ x ∈ l, x.warning? = none) :
    warnings l = [] := by
  induction l with
  | nil => rfl
  | cons x xs ih =>
    have hx := h x (List.mem_cons_self _ _)
    have ih' := ih (fun y hy => h y (List.mem_cons_of_mem _ hy))
    simp only [warnings] at ih'
    simp [warnings, hx, ih']

/-- The loop over `otherModelDirs` prints no warning, however it ends. -/
theorem others_no_warning (dirname : Path) (fs : Node) :
    warnings (Effect.seq (otherModelDirs.map (otherModelEffect dirname fs))).console = [] := by
  apply warnings_of_no_warn
  intro x hx
  have hx2 := (seq_console_sublist _).subset hx
  obtain ⟨l, hl, hxl⟩ := List.mem_flatten.mp hx2
  simp only [List.map_map, List.mem_map, Function.comp] at hl
  obtain ⟨m, _, rfl⟩ := hl
  rw [otherModelEffect_eq] at hxl
  simp only [] at hxl
  split at hxl
  · rw [List.mem_singleton] at hxl; subst hxl; rfl
  · simp at hxl

/-- What the analyzer job queues and prints, split after line 50: the files
and the GUI file are always dealt with in full. -/
theorem analyzerEffect_split (dirname : Path) (fs : Node) :
    analyzerEffect dirname fs =
      ⟨(filesToInclude.filter (fun f => (fs.find (dirname ++ [f])).isSome)).map
            (fun f => ⟨basename f, .path (dirname ++ [f])⟩)
          ++ ((if (fs.find (dirname ++ ["AI", "log_analyzer_gui.py"])).isSome then
                [⟨"log_analyzer_gui.py", .path (dirname ++ ["AI", "log_analyzer_gui.py"])⟩]
               else [])
              ++ ((aiEffect dirname fs).andThen inlineEffect).entries),
        (filesToInclude.filter (fun f => !(fs.find (dirname ++ [f])).isSome)).map
            (fun f => Line.warn ("Warning: File not found: " ++ f))
          ++ ((if (fs.find (dirname ++ ["AI", "log_analyzer_gui.py"])).isSome then []
               else [Line.warn "Warning: File not found: AI/log_analyzer_gui.py"])
              ++ ((aiEffect dirname fs).andThen inlineEffect).console),
        ((aiEffect dirname fs).andThen inlineEffect).err⟩ := by
  unfold analyzerEffect
  rw [files_effect]
  unfold guiEffect
  split <;> simp [Effect.andThen, Effect.file, Effect.warn]

/-- The warnings of lines 54 to 148, however they end. -/
theorem ai_warnings (dirname : Path) (fs : Node) :
    warnings ((aiEffect dirname fs).andThen inlineEffect).console =
      (if (fs.find (dirname ++ ["AI"])).isSome then
        (if (fs.find (dirname ++ ["AI", "main-federated-roberta-model"])).isSome then []
         else ["Warning: Model directory not found: " ++
            showPath (dirname ++ ["AI", "main-federated-roberta-model"])])
      else ["Warning: AI directory not found: " ++ showPath (dirname ++ ["AI"])]) := by
  have hinl : inlineEffect.console = [] := by
    simp [inlineEffect, Effect.andThen, Effect.text]
  rw [andThen_console, hinl]
  simp only [ite_self, List.append_nil]
  unfold aiEffect
  split
  · rw [andThen_console, andThen_console, mainModelEffect_eq]
    simp only [Effect.marker, List.nil_append, Option.isSome_none, Option.isNone_none, if_true]
    rw [warnings_append]
    have hrest : warnings (if (modelErr dirname fs "main-federated-roberta-model").isNone = true
        then (Effect.seq (otherModelDirs.map (otherModelEffect dirname fs))).console else []) = [] := by
      split
      · exact others_no_warning dirname fs
      · rfl
    rw [hrest, List.append_nil]
    split
    · exact warnings_map_log _ _
    · simp [warnings, Line.warning?]
  · simp [Effect.warn, warnings, Line.warning?]

/-- The warnings of the analyzer job, however it ends. -/
theorem analyzerEffect_warnings (dirname : Path) (fs : Node) :
    warnings (analyzerEffect dirname fs).console = warnings (expectedConsole dirname fs) := by
  rw [expected_warnings, analyzerEffect_split]
  simp only [warnings_append, warnings_map_warn, ai_warnings, List.append_assoc]
  congr 2
  split <;> simp [warnings, Line.warning?]

/-- The warnings of the analyzer job, started on a fresh console, when the
output directory is available. -/
theorem analyzer_warnings_of_available {dirname : Path} {fs : Node}
    (hout : outputDirAvailable dirname fs = true) :
    warnings (createLogAnalyzerZip dirname (St.init fs)).state.console =
      warnings (expectedConsole dirname fs) := by
  obtain ⟨⟨fs1, calls⟩, hr⟩ := Option.isSome_iff_exists.mp hout
  have hr' : ensureDir (St.init fs).fs (outputDirOf dirname) = some (fs1, calls) := hr
  rw [createLogAnalyzerZip_run, jobResult_console hr', warnings_append, warnings_append]
  have htail : warnings (if ((fs1.openWrite (outputDirOf dirname ++ ["log_analyzer_tool.zip"])).isSome
      && (analyzerEffect dirname (St.init fs).fs).err.isNone) = true
      then [Line.log "Log Analyzer Tool zip file created successfully!"] else []) = [] := by
    split <;> simp [warnings, Line.warning?]
  rw [htail, List.append_nil]
  have h0 : warnings (St.init fs).console = [] := rfl
  rw [h0, List.nil_append]
  exact analyzerEffect_warnings dirname fs

/-- The entries of the individual files are queued in full whenever the output
directory is available. -/
theorem analyzer_source_entry {dirname : Path} {s : St}
    (hout : outputDirAvailable dirname s.fs = true) :
    ∀ src ∈ individualSources, (s.fs.find (dirname ++ src.1)).isSome = true →
      (⟨basename src.2, .path (dirname ++ src.1)⟩ : Entry) ∈
        (createLogAnalyzerZip dirname s).state.entries := by
  intro src hsrc hex
  rw [createLogAnalyzerZip_run, jobResult_entries hout, analyzerEffect_split]
  simp only []
  rcases List.mem_append.mp hsrc with h | h
  · obtain ⟨f, hf, rfl⟩ := List.mem_map.mp h
    refine List.mem_append_left _ ?_
    exact List.mem_map.mpr ⟨f, List.mem_filter.mpr ⟨hf, hex⟩, rfl⟩
  · simp only [List.mem_singleton] at h
    subst h
    have : basename "AI/log_analyzer_gui.py" = "log_analyzer_gui.py" := by decide!
    simp only [this]
    refine List.mem_append_right _ (List.mem_append_left _ ?_)
    simp only [hex, if_true]
    exact List.mem_singleton.mpr rfl

/-- An individual file has an entry under its base name exactly when its path
exists, whenever the output directory is available. -/
theorem analyzer_source_name {dirname : Path} {s : St}
    (hout : outputDirAvailable dirname s.fs = true) :
    ∀ src ∈ individualSources,
      (basename src.2 ∈ (createLogAnalyzerZip dirname s).state.entries.map Entry.name ↔
        (s.fs.find (dirname ++ src.1)).isSome = true) := by
  intro src hsrc
  constructor
  · intro h
    have hsub := (analyzer_entries_sublist hout).map Entry.name
    exact (source_name_mem dirname s.fs src hsrc).mp (hsub.subset h)
  · intro hex
    exact List.mem_map.mpr ⟨_, analyzer_source_entry hout src hsrc hex, rfl⟩

/-! ## The claims -/

/-! ### C1: the driver -/

/-- The driver in closed form: the collector job runs only after the analyzer
job ended normally, and one `catch` serves both. -/
theorem createAllZips_apply (dirname : Path) (s : St) :
    createAllZips dirname s =
      match createLogAnalyzerZip dirname s with
      | .ok _ s1 =>
        (match createLogCollectorZip dirname s1 with
          | .ok _ s2 =>
            .ok () { s2 with console := s2.console ++ [.log "All zip files created successfully!"] }
          | .throw e s2 =>
            .ok () { s2 with console := s2.console ++ [.error "Error creating zip files:" e] }
          | .abort s2 => .abort s2)
      | .throw e s1 =>
        .ok () { s1 with console := s1.console ++ [.error "Error creating zip files:" e] }
      | .abort s1 => .abort s1 := by
  simp only [createAllZips, tryCatch, bind_apply]
  cases createLogAnalyzerZip dirname s with
  | ok a s1 =>
    simp only []
    cases createLogCollectorZip dirname s1 <;> simp [consoleLog, consoleError]
  | throw e s1 => simp [consoleError]
  | abort s1 => simp

/-- C1, as the code has it: both jobs run inside one `try`, so when
`createLogAnalyzerZip` throws, the single `catch` logs that error once and the
driver ends normally in the state of the throw plus that line; nothing of
`createLogCollectorZip` has run. -/
theorem createAllZips_of_analyzer_throw (dirname : Path) (s : St) (e : Err)
    (h : (createLogAnalyzerZip dirname s).error? = some e) :
    createAllZips dirname s =
      .ok () { (createLogAnalyzerZip dirname s).state with
        console := (createLogAnalyzerZip dirname s).state.console ++
          [.error "Error creating zip files:" e] } := by
  rw [createAllZips_apply]
  cases hr : createLogAnalyzerZip dirname s with
  | ok a s1 => simp [hr, Res.error?] at h
  | abort s1 => simp [hr, Res.error?] at h
  | throw e1 s1 =>
    simp only [hr, Res.error?, Option.some.injEq] at h
    simp [Res.state, h]

/-- C1, witness: on a checkout in which `AI/bert-log-model` is a regular file
the analyzer job throws and the driver ends as stated. -/
theorem createAllZips_of_analyzer_throw_witness :
    (createLogAnalyzerZip ["repo"] (St.init fsModelIsFile)).error? =
        some (.notADirectory ["repo", "AI", "bert-log-model"]) ∧
      createAllZips ["repo"] (St.init fsModelIsFile) =
        .ok () { (createLogAnalyzerZip ["repo"] (St.init fsModelIsFile)).state with
          console := (createLogAnalyzerZip ["repo"] (St.init fsModelIsFile)).state.console ++
            [.error "Error creating zip files:" (.notADirectory ["repo", "AI", "bert-log-model"])] } :=
  ⟨by decide!, createAllZips_of_analyzer_throw _ _ _ (by decide!)⟩

/-- C1, counterexample: on a checkout in which `AI/bert-log-model` is a
regular file `createLogAnalyzerZip` throws, and after `createAllZips` the only
filesystem calls are those of the analyzer job: the stream of
`log_collector_tool.zip` was never opened and the collector printed nothing. -/
theorem createAllZips_collector_not_attempted :
    (createLogAnalyzerZip ["repo"] (St.init fsModelIsFile)).isThrow = true ∧
      (createAllZips ["repo"] (St.init fsModelIsFile)).state.trace =
        [.mkdir ["repo", "Front-End", "public", "downloads"],
         .openWrite ["repo", "Front-End", "public", "downloads", "log_analyzer_tool.zip"]] ∧
      (createAllZips ["repo"] (St.init fsModelIsFile)).state.console =
        [.warn "Warning: File not found: requirements.txt",
         .warn "Warning: File not found: start_log_analyzer_gui.bat",
         .warn "Warning: File not found: log_analyzer_readme.md",
         .warn "Warning: File not found: test_model_path.py",
         .warn "Warning: Model directory not found: /repo/AI/main-federated-roberta-model",
         .log "Adding additional model: bert-log-model",
         .error "Error creating zip files:" (.notADirectory ["repo", "AI", "bert-log-model"])] := by
  decide!

/-! ### C2: the individual files -/

/-- C2, as the code has it: on every state on which the output directory
exists or can be created, for each of the six individual source files the
queue holds an entry named by the base name of the file if and only if its
path exists; and when moreover the write stream opens and every model path
that exists is a directory, the job completes and, whichever of the six are
absent, `README.md` and `sample_logs.csv` are still queued, as the last two
entries. -/
theorem individual_file_entries (dirname : Path) (s : St)
    (hout : outputDirAvailable dirname s.fs = true) :
    (∀ src ∈ individualSources,
        (basename src.2 ∈ (createLogAnalyzerZip dirname s).state.entries.map Entry.name ↔
          (s.fs.find (dirname ++ src.1)).isSome = true)) ∧
      (outputWritable dirname "log_analyzer_tool.zip" s.fs = true →
        modelsListable dirname s.fs = true →
          (createLogAnalyzerZip dirname s).isOk = true ∧
          ∃ before : List Entry, (createLogAnalyzerZip dirname s).state.entries =
            before ++ [⟨"README.md", .text analyzerReadmeContent⟩,
              ⟨"sample_logs.csv", .text sampleCsvContent⟩]) := by
  refine ⟨analyzer_source_name hout, ?_⟩
  intro hw hmod
  refine ⟨analyzer_isOk hw hmod, ?_⟩
  rw [analyzer_entries hout hmod]
  unfold expectedEntries
  exact ⟨_, rfl⟩

/-- C2, witness: a checkout with only two of the six files. -/
theorem individual_file_entries_witness :
    (∀ src ∈ individualSources,
        (basename src.2 ∈
            (createLogAnalyzerZip ["repo"] (St.init fsFileIsDir)).state.entries.map Entry.name ↔
          ((St.init fsFileIsDir).fs.find (["repo"] ++ src.1)).isSome = true)) ∧
      (createLogAnalyzerZip ["repo"] (St.init fsFileIsDir)).isOk = true ∧
      ∃ before : List Entry, (createLogAnalyzerZip ["repo"] (St.init fsFileIsDir)).state.entries =
        before ++ [⟨"README.md", .text analyzerReadmeContent⟩,
          ⟨"sample_logs.csv", .text sampleCsvContent⟩] :=
  ⟨(individual_file_entries ["repo"] (St.init fsFileIsDir) (by decide!)).1,
    (individual_file_entries ["repo"] (St.init fsFileIsDir) (by decide!)).2 (by decide!)
      (by decide!)⟩

/-- C2, counterexample: `log_analyzer_tool.py` exists, but `Front-End` is a
regular file: `mkdirSync` throws at line 12 and no entry is queued for it.
And where `requirements.txt` is absent and `AI/bert-log-model` is a regular
file, the job throws and `README.md` is not queued. -/
theorem individual_file_without_entry :
    (fsOutputBlocked.find ["repo", "log_analyzer_tool.py"]).isSome = true ∧
      (createLogAnalyzerZip ["repo"] (St.init fsOutputBlocked)).isThrow = true ∧
      "log_analyzer_tool.py" ∉
        (createLogAnalyzerZip ["repo"] (St.init fsOutputBlocked)).state.entries.map Entry.name ∧
      (fsModelIsFile.find ["repo", "requirements.txt"]).isSome = false ∧
      (createLogAnalyzerZip ["repo"] (St.init fsModelIsFile)).isThrow = true ∧
      "README.md" ∉
        (createLogAnalyzerZip ["repo"] (St.init fsModelIsFile)).state.entries.map Entry.name := by
  decide!

/-! ### C3: the model directories -/

/-- C3, as the code has it: on every state on which the output is writable and
every model path that exists is a directory, the job completes and, for each
of the six model directory names `m`, the queued entries whose name starts
with `AI/<m>/` are: nothing when `AI/<m>` does not exist; otherwise the marker
`AI/<m>/` followed, in listing order, by one entry `AI/<m>/<child>` for each
listed name that resolves to a regular file (so none for a subdirectory or
for anything inside one). -/
theorem model_directory_entries (dirname : Path) (s : St) (m : String)
    (hout : outputWritable dirname "log_analyzer_tool.zip" s.fs = true)
    (hmod : modelsListable dirname s.fs = true) (hm : m ∈ allModelDirs) :
    (createLogAnalyzerZip dirname s).isOk = true ∧
      (createLogAnalyzerZip dirname s).state.entries.filter
          (fun e => startsWith ("AI/" ++ m ++ "/") e.name) =
        if (s.fs.find (dirname ++ ["AI", m])).isSome then
          ⟨"AI/" ++ m ++ "/", .marker⟩ ::
            ((listing s.fs (dirname ++ ["AI", m])).filter
                (fun c => isRegular (s.fs.find (dirname ++ ["AI", m, c])))).map
              (fun c => ⟨"AI/" ++ m ++ "/" ++ c, .path (dirname ++ ["AI", m, c])⟩)
        else [] := by
  refine ⟨analyzer_isOk hout hmod, ?_⟩
  rw [analyzer_entries (writable_available hout) hmod, expected_filter dirname s.fs hm]
  rfl

/-- C3, witness: the main model directory of a complete checkout, which holds
two regular files and a subdirectory. -/
theorem model_directory_entries_witness :
    (createLogAnalyzerZip ["repo"] (St.init fsComplete)).state.entries.filter
        (fun e => startsWith "AI/main-federated-roberta-model/" e.name) =
      [⟨"AI/main-federated-roberta-model/", .marker⟩,
       ⟨"AI/main-federated-roberta-model/config.json",
         .path ["repo", "AI", "main-federated-roberta-model", "config.json"]⟩,
       ⟨"AI/main-federated-roberta-model/model.bin",
         .path ["repo", "AI", "main-federated-roberta-model", "model.bin"]⟩] := by
  have h := (model_directory_entries ["repo"] (St.init fsComplete) "main-federated-roberta-model"
    (by decide!) (by decide!) (by decide!)).2
  rw [main_name] at h
  rw [h]
  decide!

/-- C3, counterexample: the `AI` directory exists and
`AI/main-federated-roberta-model` does not, yet the job does not complete:
`AI/bert-log-model` is a regular file and `readdirSync` throws on it. And with
`Front-End` a regular file, the main model directory exists and holds a
regular file, yet no entry starts with its name: `mkdirSync` has thrown. -/
theorem model_directory_job_throws :
    (fsModelIsFile.find ["repo", "AI"]).isSome = true ∧
      (fsModelIsFile.find ["repo", "AI", "main-federated-roberta-model"]).isSome = false ∧
      (createLogAnalyzerZip ["repo"] (St.init fsModelIsFile)).isOk = false ∧
      (createLogAnalyzerZip ["repo"] (St.init fsModelIsFile)).error? =
        some (.notADirectory ["repo", "AI", "bert-log-model"]) ∧
      isDirectory (fsOutputBlocked.find ["repo", "AI", "main-federated-roberta-model"]) = true ∧
      (createLogAnalyzerZip ["repo"] (St.init fsOutputBlocked)).state.entries.filter
        (fun e => startsWith "AI/main-federated-roberta-model/" e.name) = [] := by
  decide!

/-! ### C4: warnings -/

/-- C4, as the code has it: on every filesystem on which the output directory
exists or can be created, the warnings of the job are, in order: one for each
absent file of `filesToInclude`, one for `AI/log_analyzer_gui.py` when absent,
and then one for the `AI` directory when it is absent, or else one for
`main-federated-roberta-model` when that is absent. No warning is printed for
an absent directory of `otherModelDirs`, nor for the main model directory
when `AI` itself is absent. -/
theorem warnings_printed (dirname : Path) (fs : Node)
    (hout : outputDirAvailable dirname fs = true) :
    warnings (createLogAnalyzerZip dirname (St.init fs)).state.console =
      (filesToInclude.filter (fun f => !(fs.find (dirname ++ [f])).isSome)).map
          (fun f => "Warning: File not found: " ++ f)
        ++ (if (fs.find (dirname ++ ["AI", "log_analyzer_gui.py"])).isSome then []
            else ["Warning: File not found: AI/log_analyzer_gui.py"])
        ++ (if (fs.find (dirname ++ ["AI"])).isSome then
              (if (fs.find (dirname ++ ["AI", "main-federated-roberta-model"])).isSome then []
               else ["Warning: Model directory not found: " ++
                  showPath (dirname ++ ["AI", "main-federated-roberta-model"])])
            else ["Warning: AI directory not found: " ++ showPath (dirname ++ ["AI"])]) := by
  rw [analyzer_warnings_of_available hout, expected_warnings]

/-- C4, witness: a checkout with two of the six files and no `AI` directory. -/
theorem warnings_printed_witness :
    warnings (createLogAnalyzerZip ["repo"] (St.init fsFileIsDir)).state.console =
      ["Warning: File not found: start_log_analyzer_gui.bat",
       "Warning: File not found: log_analyzer_readme.md",
       "Warning: File not found: test_model_path.py",
       "Warning: File not found: AI/log_analyzer_gui.py",
       "Warning: AI directory not found: /repo/AI"] := by
  rw [warnings_printed ["repo"] fsFileIsDir (by decide!)]
  decide!

/-- C4, counterexample: the five directories of `otherModelDirs` are all
absent and left out of the archive, the job completes, and it prints no
warning at all. And where `Front-End` is a regular file, every source is
absent and nothing at all is printed: `mkdirSync` has thrown. -/
theorem no_warning_for_other_models :
    (∀ m ∈ otherModelDirs, (fsMainModelOnly.find (["repo", "AI"] ++ [m])).isSome = false) ∧
      (createLogAnalyzerZip ["repo"] (St.init fsMainModelOnly)).isOk = true ∧
      (createLogAnalyzerZip ["repo"] (St.init fsMainModelOnly)).state.console =
        [.log "Adding model file: model.bin",
         .log "Log Analyzer Tool zip file created successfully!"] ∧
      (fsBlockedEmpty.find ["repo", "requirements.txt"]).isSome = false ∧
      (createLogAnalyzerZip ["repo"] (St.init fsBlockedEmpty)).state.console = [] := by
  decide!

/-! ### C5: what is tested before a file is queued -/

/-- C5, as the code has it: only existence is tested. On every filesystem on
which the output directory exists or can be created, each of the six
individual source paths that exists, whatever kind of node it is, gets its
entry, and its warning is printed exactly when the path is absent. -/
theorem existing_source_queued (dirname : Path) (fs : Node)
    (hout : outputDirAvailable dirname fs = true) :
    ∀ src ∈ individualSources,
      ((fs.find (dirname ++ src.1)).isSome = true →
        (⟨basename src.2, .path (dirname ++ src.1)⟩ : Entry) ∈
          (createLogAnalyzerZip dirname (St.init fs)).state.entries) ∧
      (("Warning: File not found: " ++ src.2) ∈
          warnings (createLogAnalyzerZip dirname (St.init fs)).state.console ↔
        (fs.find (dirname ++ src.1)).isSome = false) := by
  intro src hsrc
  constructor
  · exact analyzer_source_entry (s := St.init fs) hout src hsrc
  · rw [analyzer_warnings_of_available hout]
    exact source_warning_mem dirname fs src hsrc

/-- C5, witness: `requirements.txt` is a directory; it is queued like a file
and no warning names it. -/
theorem existing_source_queued_witness :
    isDirectory (fsFileIsDir.find ["repo", "requirements.txt"]) = true ∧
      (⟨"requirements.txt", .path ["repo", "requirements.txt"]⟩ : Entry) ∈
        (createLogAnalyzerZip ["repo"] (St.init fsFileIsDir)).state.entries ∧
      "Warning: File not found: requirements.txt" ∉
        warnings (createLogAnalyzerZip ["repo"] (St.init fsFileIsDir)).state.console := by
  have h := existing_source_queued ["repo"] fsFileIsDir (by decide!)
    (["requirements.txt"], "requirements.txt") (by decide!)
  refine ⟨by decide!, ?_, ?_⟩
  · have h1 := h.1 (by decide!)
    have hb : basename "requirements.txt" = "requirements.txt" := by decide!
    simpa [hb] using h1
  · have h2 := h.2
    intro hmem
    have hw : "Warning: File not found: " ++ "requirements.txt" =
        "Warning: File not found: requirements.txt" := by decide!
    rw [← hw] at hmem
    have := h2.mp hmem
    revert this
    decide!

/-- C5, counterexample: `requirements.txt` exists and is a directory, not a
regular file; `archive.file` is called for it all the same and the console
has no warning about it. -/
theorem directory_queued_as_file :
    isRegular (fsFileIsDir.find ["repo", "requirements.txt"]) = false ∧
      (fsFileIsDir.find ["repo", "requirements.txt"]).isSome = true ∧
      (createLogAnalyzerZip ["repo"] (St.init fsFileIsDir)).state.entries =
        [⟨"log_analyzer_tool.py", .path ["repo", "log_analyzer_tool.py"]⟩,
         ⟨"requirements.txt", .path ["repo", "requirements.txt"]⟩,
         ⟨"README.md", .text analyzerReadmeContent⟩,
         ⟨"sample_logs.csv", .text sampleCsvContent⟩] ∧
      (createLogAnalyzerZip ["repo"] (St.init fsFileIsDir)).state.console =
        [.warn "Warning: File not found: start_log_analyzer_gui.bat",
         .warn "Warning: File not found: log_analyzer_readme.md",
         .warn "Warning: File not found: test_model_path.py",
         .warn "Warning: File not found: AI/log_analyzer_gui.py",
         .warn "Warning: AI directory not found: /repo/AI",
         .log "Log Analyzer Tool zip file created successfully!"] := by
  decide!

/-! ### C6: the entry count -/

/-- C6, as the code has it: when the output directory exists or can be
created and every source path exists (the six files, and the six model
directories as directories), the queue has 15 entries plus, for each model
directory, one per listed name that resolves to a regular file. -/
theorem entry_count (dirname : Path) (s : St)
    (hout : outputDirAvailable dirname s.fs = true)
    (hfiles : ∀ f ∈ filesToInclude, (s.fs.find (dirname ++ [f])).isSome = true)
    (hgui : (s.fs.find (dirname ++ ["AI", "log_analyzer_gui.py"])).isSome = true)
    (hai : (s.fs.find (dirname ++ ["AI"])).isSome = true)
    (hdirs : ∀ m ∈ allModelDirs, isDirectory (s.fs.find (dirname ++ ["AI", m])) = true) :
    (createLogAnalyzerZip dirname s).state.entries.length =
      15 + (allModelDirs.map (fun m => (regularChildren dirname s.fs m).length)).sum := by
  have hmod : modelsListable dirname s.fs = true := by
    unfold modelsListable
    rw [List.all_eq_true]
    intro m hm
    have := hdirs m hm
    cases hf : s.fs.find (dirname ++ ["AI", m]) with
    | none => rfl
    | some n => cases n <;> simp [hf, isDirectory] at this ⊢
  have hsome : ∀ m ∈ allModelDirs, (s.fs.find (dirname ++ ["AI", m])).isSome = true := by
    intro m hm
    have := hdirs m hm
    cases hf : s.fs.find (dirname ++ ["AI", m]) with
    | none => simp [hf, isDirectory] at this
    | some n => rfl
  have hfilter : filesToInclude.filter (fun f => (s.fs.find (dirname ++ [f])).isSome) =
      filesToInclude := by
    rw [List.filter_eq_self]
    exact hfiles
  have hblocks : (allModelDirs.map (modelBlock dirname s.fs)).flatten.length =
      6 + (allModelDirs.map (fun m => (regularChildren dirname s.fs m).length)).sum := by
    have h6 := hsome "main-federated-roberta-model" (by decide)
    have h1 := hsome "bert-log-model" (by decide)
    have h2 := hsome "bgl-bert-base-model" (by decide)
    have h3 := hsome "bgl-roberta-model" (by decide)
    have h4 := hsome "hdfs_roberta_model" (by decide)
    have h5 := hsome "roberta-log-model" (by decide)
    simp only [allModelDirs, otherModelDirs, List.map_cons, List.map_nil, List.flatten_cons,
      List.flatten_nil, modelBlock, h1, h2, h3, h4, h5, h6, if_true, List.length_append,
      List.length_cons, List.length_map, List.length_nil, List.sum_cons, List.sum_nil]
    omega
  rw [analyzer_entries hout hmod]
  unfold expectedEntries
  simp only [hfilter, hgui, hai, if_true, List.length_append, List.length_map, List.length_cons,
    List.length_nil, hblocks]
  have : filesToInclude.length = 5 := rfl
  omega

/-- C6, witness: a complete checkout, whose model directories hold five
regular files in all. -/
theorem entry_count_witness :
    (createLogAnalyzerZip ["repo"] (St.init fsComplete)).state.entries.length =
      15 + (allModelDirs.map
        (fun m => (regularChildren ["repo"] (St.init fsComplete).fs m).length)).sum :=
  entry_count ["repo"] (St.init fsComplete) (by decide!) (by decide!) (by decide!) (by decide!)
    (by decide!)

/-- C6, counterexample: every source path exists, but `Front-End` is a regular
file, so `mkdirSync` throws at line 12 and nothing is queued. -/
theorem entry_count_zero_when_output_blocked :
    (∀ f ∈ filesToInclude, (fsOutputBlocked.find (["repo"] ++ [f])).isSome = true) ∧
      (fsOutputBlocked.find ["repo", "AI", "log_analyzer_gui.py"]).isSome = true ∧
      (∀ m ∈ allModelDirs, isDirectory (fsOutputBlocked.find (["repo"] ++ ["AI", m])) = true) ∧
      (createLogAnalyzerZip ["repo"] (St.init fsOutputBlocked)).error? =
        some (.mkdirFailed ["repo", "Front-End", "public", "downloads"]) ∧
      (createLogAnalyzerZip ["repo"] (St.init fsOutputBlocked)).state.entries.length = 0 := by
  decide!

/-! ### C7: inline entries -/

/-- C7, as the code has it: on every state on which the output directory
exists or can be created, `createLogCollectorZip` queues exactly one entry,
`README.md` with its placeholder text, and, when every model path that exists
is a directory, the last two entries `createLogAnalyzerZip` queues are
`README.md` and `sample_logs.csv` with exactly the template texts. -/
theorem inline_entries_written (dirname : Path) (s : St)
    (hout : outputDirAvailable dirname s.fs = true) :
    (modelsListable dirname s.fs = true →
      ∃ before : List Entry, (createLogAnalyzerZip dirname s).state.entries =
        before ++ [⟨"README.md", .text analyzerReadmeContent⟩,
          ⟨"sample_logs.csv", .text sampleCsvContent⟩]) ∧
      (createLogCollectorZip dirname s).state.entries =
        [⟨"README.md", .text collectorReadmeContent⟩] := by
  constructor
  · intro hmod
    rw [analyzer_entries hout hmod]
    unfold expectedEntries
    exact ⟨_, rfl⟩
  · rw [createLogCollectorZip_run, jobResult_entries hout]
    rfl

/-- C7, witness: a complete checkout. -/
theorem inline_entries_written_witness :
    (∃ before : List Entry, (createLogAnalyzerZip ["repo"] (St.init fsComplete)).state.entries =
        before ++ [⟨"README.md", .text analyzerReadmeContent⟩,
          ⟨"sample_logs.csv", .text sampleCsvContent⟩]) ∧
      (createLogCollectorZip ["repo"] (St.init fsComplete)).state.entries =
        [⟨"README.md", .text collectorReadmeContent⟩] :=
  ⟨(inline_entries_written ["repo"] (St.init fsComplete) (by decide!)).1 (by decide!),
    (inline_entries_written ["repo"] (St.init fsComplete) (by decide!)).2⟩

/-- C7, counterexample: when `AI/bert-log-model` is a regular file, `readdirSync`
throws at line 95 and the queue of `createLogAnalyzerZip` ends with the marker
of that directory: `README.md` and `sample_logs.csv` are never appended. And
when `Front-End` is a regular file, `mkdirSync` throws in
`createLogCollectorZip` and nothing is queued. -/
theorem inline_entries_missing_after_throw :
    (createLogAnalyzerZip ["repo"] (St.init fsModelIsFile)).state.entries.map Entry.name =
        ["log_analyzer_tool.py", "log_analyzer_gui.py", "AI/", "AI/bert-log-model/"] ∧
      (createLogCollectorZip ["repo"] (St.init fsOutputBlocked)).isThrow = true ∧
      (createLogCollectorZip ["repo"] (St.init fsOutputBlocked)).state.entries = [] := by
  decide!

/-! ### C8: the output directory -/

/-- C8, as the code has it, for both jobs and every starting state: when the
output directory does not exist and `mkdirSync` can create it, it is created
with its missing ancestors before the stream is opened, and afterwards the
directory exists and the archive file is present; when the path exists,
`mkdirSync` is not called and no other entry of the directory is changed (and
the archive file is present afterwards if the path is a directory and the
archive path is not one). -/
theorem output_directory_prepared (dirname : Path) (s : St) :
    PreparesOutput dirname "log_analyzer_tool.zip" s (createLogAnalyzerZip dirname s) ∧
      PreparesOutput dirname "log_collector_tool.zip" s (createLogCollectorZip dirname s) := by
  constructor
  · rw [createLogAnalyzerZip_run]
    exact jobResult_prepares _ _ _ _ _
  · rw [createLogCollectorZip_run]
    exact jobResult_prepares _ _ _ _ _

/-- C8, witness: on a complete checkout without output directory, the analyzer
job calls `mkdirSync` and then `createWriteStream`, and leaves the directory,
its ancestors and the archive file in place. -/
theorem output_directory_prepared_witness :
    (createLogAnalyzerZip ["repo"] (St.init fsComplete)).state.trace =
        [.mkdir ["repo", "Front-End", "public", "downloads"],
         .openWrite ["repo", "Front-End", "public", "downloads", "log_analyzer_tool.zip"]] ∧
      (∀ p, p <+: ["repo", "Front-End", "public", "downloads"] →
        isDirectory ((createLogAnalyzerZip ["repo"] (St.init fsComplete)).state.fs.find p) = true) ∧
      isRegular ((createLogAnalyzerZip ["repo"] (St.init fsComplete)).state.fs.find
        ["repo", "Front-End", "public", "downloads", "log_analyzer_tool.zip"]) = true :=
  (output_directory_prepared ["repo"] (St.init fsComplete)).1.1 (by decide!) (by decide!)

/-- C8, counterexample: the output directory does not exist and `Front-End`
is a regular file; `mkdirSync` throws, and after the call neither the
directory nor the archive file exists. -/
theorem output_directory_not_created :
    (fsOutputBlocked.find ["repo", "Front-End", "public", "downloads"]).isSome = false ∧
      (createLogAnalyzerZip ["repo"] (St.init fsOutputBlocked)).error? =
        some (.mkdirFailed ["repo", "Front-End", "public", "downloads"]) ∧
      ((createLogAnalyzerZip ["repo"] (St.init fsOutputBlocked)).state.fs.find
        ["repo", "Front-End", "public", "downloads"]).isSome = false ∧
      ((createLogAnalyzerZip ["repo"] (St.init fsOutputBlocked)).state.fs.find
        ["repo", "Front-End", "public", "downloads", "log_analyzer_tool.zip"]).isSome = false := by
  decide!

/-! ### C9: running the job again -/

/-- C9: running `createLogAnalyzerZip` again, from a fresh start on the
filesystem its first run left, queues the identical entry list (same names,
same sources, same inline texts, same order), and every path below the script
directory outside `Front-End` resolves before the first run, after it and
after the second run to the same node: the job writes only under `Front-End`,
where it reads nothing. When the first run could reach the archiver at all,
each path one of its entries is read from is such a path. -/
theorem rerun_same_entries (dirname : Path) (fs : Node) :
    (createLogAnalyzerZip dirname
        (St.init (createLogAnalyzerZip dirname (St.init fs)).state.fs)).state.entries =
        (createLogAnalyzerZip dirname (St.init fs)).state.entries ∧
      (∀ b q, b ≠ "Front-End" →
        (createLogAnalyzerZip dirname (St.init fs)).state.fs.find (dirname ++ b :: q) =
            fs.find (dirname ++ b :: q) ∧
          (createLogAnalyzerZip dirname
              (St.init (createLogAnalyzerZip dirname (St.init fs)).state.fs)).state.fs.find
              (dirname ++ b :: q) = fs.find (dirname ++ b :: q)) ∧
      (outputDirAvailable dirname fs = true →
        ∀ e ∈ (createLogAnalyzerZip dirname (St.init fs)).state.entries, ∀ p,
          e.source = .path p → ∃ b q, b ≠ "Front-End" ∧ p = dirname ++ b :: q) := by
  refine ⟨analyzer_rerun_entries dirname (St.init fs) _ rfl rfl, ?_, ?_⟩
  · intro b q hb
    have h1 := analyzer_fs_agree dirname (St.init fs) b q hb
    have h2 := analyzer_fs_agree dirname
      (St.init (createLogAnalyzerZip dirname (St.init fs)).state.fs) b q hb
    exact ⟨h1, h2.trans h1⟩
  · intro hout e he p hp
    exact expected_sources_apart dirname fs e
      ((analyzer_entries_sublist (s := St.init fs) hout).subset he) p hp

/-- C9, witness: on a complete checkout the first run reaches the archiver,
so that each of its file entries is read from outside `Front-End`. -/
theorem rerun_same_entries_witness :
    ∀ e ∈ (createLogAnalyzerZip ["repo"] (St.init fsComplete)).state.entries,
      ∀ p, e.source = .path p → ∃ b q, b ≠ "Front-End" ∧ p = ["repo"] ++ b :: q :=
  (rerun_same_entries ["repo"] fsComplete).2.2 (by decide!)

/-! ### C10: distinct names -/

/-- C10: on every filesystem in which no model directory lists a name twice
(and, as for every file name, no listed name is empty), the names of the
entries `createLogAnalyzerZip` queues are pairwise distinct, whether the run
completes or not. -/
theorem entry_names_distinct (dirname : Path) (fs : Node)
    (hnd : ∀ m ∈ allModelDirs, (listing fs (dirname ++ ["AI", m])).Nodup)
    (hne : ∀ m ∈ allModelDirs, "" ∉ listing fs (dirname ++ ["AI", m])) :
    ((createLogAnalyzerZip dirname (St.init fs)).state.entries.map Entry.name).Nodup := by
  cases hout : outputDirAvailable dirname fs with
  | true =>
    have hsub : (createLogAnalyzerZip dirname (St.init fs)).state.entries.Sublist
        (expectedEntries dirname fs) := analyzer_entries_sublist (s := St.init fs) hout
    exact List.Nodup.sublist (hsub.map Entry.name) (expected_names_nodup dirname fs hnd hne)
  | false =>
    have hnone : ensureDir (St.init fs).fs (outputDirOf dirname) = none := by
      unfold outputDirAvailable at hout
      cases hr : ensureDir fs (outputDirOf dirname) with
      | none => exact hr
      | some r => simp [hr] at hout
    rw [createLogAnalyzerZip_run, jobResult_of_none hnone]
    simp [Res.state, St.init]

/-- C10, witness: a complete checkout. -/
theorem entry_names_distinct_witness :
    ((createLogAnalyzerZip ["repo"] (St.init fsComplete)).state.entries.map Entry.name).Nodup :=
  entry_names_distinct ["repo"] fsComplete (by decide!) (by decide!)

end AnalyzerZip
